import Mathlib

/-!
Verification development for scripts/collect_topconf_papers.py: a shallow
embedding, in Lean 4, of the record canonicalizer, identity resolver,
cluster merger, venue matcher and the retry discipline of the polite HTTP
client, together with theorems settling the specification claims.

Modelling conventions:
* Python strings are Lean `String` (a wrapper around `List Char`); all text
  operations are defined on the underlying character lists.
* Python `None`-able strings are `Option String`; Python truthiness of a
  string (`if s:`) is `strTruthy` / `optTruthy` (empty string is falsy).
* Unicode NFKD decomposition and HTML entity unescaping are modelled as the
  identity function: on the ASCII, entity-free strings these claims range
  over, both are identities in CPython as well.
* `str.lower()` / `str.casefold()` are modelled as ASCII lowercasing.
* Python dicts are association lists with update-in-place semantics
  (`setA`), preserving key uniqueness and insertion order.
-/

set_option maxRecDepth 100000

/-- Python truthiness of a string: `""` is falsy. -/
def strTruthy (s : String) : Bool := decide (s ≠ "")

/-- Python truthiness of an optional string: `None` and `""` are falsy. -/
def optTruthy : Option String → Bool
  | none => false
  | some s => strTruthy s

/-- Split a character list at whitespace runs (words may be empty). -/
def wsSplit (l : List Char) : List (List Char) :=
  l.foldr (fun c acc =>
    if c.isWhitespace then [] :: acc
    else match acc with
      | [] => [[c]]
      | w :: ws => (c :: w) :: ws) []

/-- Join words with single spaces. -/
def joinSpace : List (List Char) → List Char
  | [] => []
  | [w] => w
  | w :: ws => w ++ ' ' :: joinSpace ws

/-- Embeds `normalize_whitespace`: collapse every whitespace run to a single space
and strip leading/trailing whitespace (`re.sub` followed by `strip`). -/
def normalize_whitespace (s : String) : String :=
  ⟨joinSpace ((wsSplit s.data).filter (fun w => !w.isEmpty))⟩

/-- Keep only ASCII characters (`.encode("ascii", "ignore")`). -/
def asciiFold (l : List Char) : List Char := l.filter (fun c => c.toNat < 128)

/-- Replace every character outside `[a-z0-9]` by a space
(`re.sub(r"[^a-z0-9]+", " ", ...)`; the run collapsing is performed by the
subsequent `normalize_whitespace`). -/
def alnumToSpace (l : List Char) : List Char :=
  l.map (fun c => if c.isLower || c.isDigit then c else ' ')

/-- Embeds `normalize_title`: ASCII-fold, lowercase, map non-alphanumerics to
spaces, collapse whitespace. -/
def normalize_title (s : String) : String :=
  normalize_whitespace ⟨alnumToSpace ((asciiFold s.data).map Char.toLower)⟩

/-- Embeds `normalize_venue`: identical pipeline to `normalize_title`. -/
def normalize_venue (s : String) : String :=
  normalize_whitespace ⟨alnumToSpace ((asciiFold s.data).map Char.toLower)⟩

/-- Case-insensitive literal prefix removal: returns the remainder when the
(lowercase) literal `pat` is a prefix of `l` up to ASCII case. -/
def dropCiLiteral (pat : List Char) (l : List Char) : Option (List Char) :=
  match pat, l with
  | [], rest => some rest
  | _ :: _, [] => none
  | p :: ps, c :: cs => if c.toLower = p then dropCiLiteral ps cs else none

/-- Strip one leading `http(s)://[dx.]doi.org/` prefix, case-insensitively
(`DOI_PREFIX_RE.sub("", doi)` with an anchored pattern). -/
def stripDoiUrlPrefix (l : List Char) : List Char :=
  ((dropCiLiteral "https://doi.org/".data l).orElse (fun _ =>
   (dropCiLiteral "http://doi.org/".data l).orElse (fun _ =>
   (dropCiLiteral "https://dx.doi.org/".data l).orElse (fun _ =>
   dropCiLiteral "http://dx.doi.org/".data l)))).getD l

/-- Python `str.strip()`: drop leading and trailing whitespace. -/
def pyStrip (l : List Char) : List Char :=
  ((l.dropWhile Char.isWhitespace).reverse.dropWhile Char.isWhitespace).reverse

/-- The cleaning pipeline inside `normalize_doi`: strip, remove one URL
prefix, remove one `doi:` prefix, strip again, lowercase. -/
def doiCore (s : String) : List Char :=
  let d0 := stripDoiUrlPrefix (pyStrip s.data)
  let d1 := if (dropCiLiteral "doi:".data d0).isSome then d0.drop 4 else d0
  (pyStrip d1).map Char.toLower

/-- Embeds `normalize_doi`: strip URL and `doi:` prefixes, lowercase, and accept
only identifiers starting with `10.`. -/
def normalize_doi : Option String → Option String
  | none => none
  | some raw =>
    if raw = "" then none
    else if (doiCore raw).isEmpty then none
    else if "10.".data.isPrefixOf (doiCore raw) then some ⟨doiCore raw⟩ else none

example : normalize_whitespace "  a   bc  " = "a bc" := by decide
example : normalize_title "A Tale of Two-Cities!" = "a tale of two cities" := by decide
example : normalize_doi (some "https://doi.org/10.1145/3548606.3560685") =
    some "10.1145/3548606.3560685" := by decide
example : normalize_doi (some "DOI:10.1145/3548606.3560685") =
    some "10.1145/3548606.3560685" := by decide
example : normalize_doi (some "not-a-doi") = none := by decide

/-- Regex word character `\w` (ASCII model): alphanumeric or underscore. -/
def isWordChar (c : Char) : Bool := c.isAlphanum || c = '_'

def prevIsWord : Option Char → Bool
  | none => false
  | some c => isWordChar c

/-- Regex word boundary `\b` between the previous character (`none` at the
start of the string) and the character `c` at the current position. -/
def boundaryBefore (prev : Option Char) (c : Char) : Bool :=
  prevIsWord prev != isWordChar c

/-- Regex word boundary `\b` directly after a word character, given the
remaining input. -/
def boundaryAfterWord : List Char → Bool
  | [] => true
  | c :: _ => !isWordChar c

/-- Shared tail of arXiv patterns 3 and 4: greedy optional `(?:v\d+)?`
followed by `\b`, where `taken` ends in a word character. Returns the full
group on success. -/
def vTail (taken : List Char) (rest : List Char) : Option (List Char) :=
  (match rest with
   | v :: vr =>
     if v.toLower = 'v' then
       let ds := vr.takeWhile Char.isDigit
       if !ds.isEmpty && boundaryAfterWord (vr.drop ds.length) then
         some (taken ++ v :: ds)
       else none
     else none
   | [] => none).orElse (fun _ => if boundaryAfterWord rest then some taken else none)

/-- Pattern `arxiv\.org/(?:abs|pdf)/([^/?#]+)` anchored at this position. -/
def pat1At (l : List Char) : Option (List Char) :=
  match (dropCiLiteral "arxiv.org/abs/".data l).orElse (fun _ =>
         dropCiLiteral "arxiv.org/pdf/".data l) with
  | some rest =>
    let g := rest.takeWhile (fun c => !(c = '/' || c = '?' || c = '#'))
    if g.isEmpty then none else some g
  | none => none

/-- Leftmost search for pattern 1. -/
def searchPat1 : List Char → Option (List Char)
  | [] => none
  | c :: cs => (pat1At (c :: cs)).orElse (fun _ => searchPat1 cs)

/-- Pattern `\barxiv:\s*([^\s]+)` anchored at this position. -/
def pat2At (prev : Option Char) (l : List Char) : Option (List Char) :=
  match l with
  | [] => none
  | c :: _ =>
    if !boundaryBefore prev c then none
    else
      match dropCiLiteral "arxiv:".data l with
      | some rest =>
        let rest2 := rest.dropWhile Char.isWhitespace
        let g := rest2.takeWhile (fun d => !d.isWhitespace)
        if g.isEmpty then none else some g
      | none => none

/-- Leftmost search for pattern 2. -/
def searchPat2Go (prev : Option Char) : List Char → Option (List Char)
  | [] => none
  | c :: cs => (pat2At prev (c :: cs)).orElse (fun _ => searchPat2Go (some c) cs)

/-- Pattern `\b([0-9]{4}\.[0-9]{4,5}(?:v\d+)?)\b` anchored here. -/
def pat3At (prev : Option Char) (l : List Char) : Option (List Char) :=
  match l with
  | [] => none
  | c :: _ =>
    if !boundaryBefore prev c then none
    else
      let d4 := l.take 4
      if !(decide (d4.length = 4) && d4.all Char.isDigit) then none
      else
        match l.drop 4 with
        | '.' :: rest =>
          let ds := rest.takeWhile Char.isDigit
          let try5 : Option (List Char) :=
            if ds.length ≥ 5 then vTail (d4 ++ '.' :: ds.take 5) (rest.drop 5) else none
          try5.orElse (fun _ =>
            if ds.length ≥ 4 then vTail (d4 ++ '.' :: ds.take 4) (rest.drop 4) else none)
        | _ => none

/-- Leftmost search for pattern 3. -/
def searchPat3Go (prev : Option Char) : List Char → Option (List Char)
  | [] => none
  | c :: cs => (pat3At prev (c :: cs)).orElse (fun _ => searchPat3Go (some c) cs)

/-- Pattern `\b([a-z\-]+(?:\.[A-Z]{2})?/\d{7}(?:v\d+)?)\b` (IGNORECASE)
anchored at this position. -/
def pat4At (prev : Option Char) (l : List Char) : Option (List Char) :=
  match l with
  | [] => none
  | c :: _ =>
    if !boundaryBefore prev c then none
    else
      let run := l.takeWhile (fun d => d.isAlpha || d = '-')
      if run.isEmpty then none
      else
        let rest := l.drop run.length
        let withDot : Option (List Char × List Char) :=
          match rest with
          | '.' :: x :: y :: r2 =>
            if x.isAlpha && y.isAlpha then
              match r2 with
              | '/' :: r3 => some (run ++ '.' :: x :: y :: [], r3)
              | _ => none
            else none
          | _ => none
        let noDot : Option (List Char × List Char) :=
          match rest with
          | '/' :: r3 => some (run, r3)
          | _ => none
        match withDot.orElse (fun _ => noDot) with
        | none => none
        | some (pre, r3) =>
          let d7 := r3.take 7
          if decide (d7.length = 7) && d7.all Char.isDigit then
            vTail (pre ++ '/' :: d7) (r3.drop 7)
          else none

/-- Leftmost search for pattern 4. -/
def searchPat4Go (prev : Option Char) : List Char → Option (List Char)
  | [] => none
  | c :: cs => (pat4At prev (c :: cs)).orElse (fun _ => searchPat4Go (some c) cs)

def hexVal (c : Char) : Nat :=
  if c.isDigit then c.toNat - 48 else c.toLower.toNat - 87

def isHexDigitCh (c : Char) : Bool :=
  c.isDigit || ('a' ≤ c.toLower && c.toLower ≤ 'f')

/-- Python `urllib.parse.unquote`, modelled byte-wise: every `%XX` hex pair
becomes the character with that code (multi-byte UTF-8 sequences are out of
scope for these claims). -/
def pyUnquoteGo : List Char → List Char
  | [] => []
  | '%' :: h1 :: h2 :: rest =>
    if isHexDigitCh h1 && isHexDigitCh h2 then
      Char.ofNat (16 * hexVal h1 + hexVal h2) :: pyUnquoteGo rest
    else '%' :: pyUnquoteGo (h1 :: h2 :: rest)
  | c :: rest => c :: pyUnquoteGo rest

/-- One-pass removal of every occurrence of `.pdf` (Python
`str.replace(".pdf", "")`). -/
def removeDotPdf : List Char → List Char
  | [] => []
  | '.' :: 'p' :: 'd' :: 'f' :: rest => removeDotPdf rest
  | c :: rest => c :: removeDotPdf rest

/-- Strip one trailing version suffix `v<digits>`
(`re.sub(r"v\d+$", "", ...)`, applied after lowercasing). -/
def stripVersionSuffix (l : List Char) : List Char :=
  let r := l.reverse
  let ds := r.takeWhile Char.isDigit
  if !ds.isEmpty then
    match r.drop ds.length with
    | 'v' :: r2 => r2.reverse
    | _ => l
  else l

/-- The candidate-cleaning prefix of `normalize_arxiv_id`: strip, unquote,
remove `.pdf`, cut at `?` and `#`, strip again. -/
def arxivCleanup (s : String) : List Char :=
  let cand := pyUnquoteGo (pyStrip s.data)
  let cand := removeDotPdf cand
  let cand := cand.takeWhile (fun c => c ≠ '?')
  let cand := cand.takeWhile (fun c => c ≠ '#')
  pyStrip cand

/-- First match over the four `ARXIV_PATTERNS`, in order. -/
def arxivSearch (cand : List Char) : Option (List Char) :=
  (searchPat1 cand).orElse (fun _ =>
  (searchPat2Go none cand).orElse (fun _ =>
  (searchPat3Go none cand).orElse (fun _ =>
  searchPat4Go none cand)))

/-- Embeds `matched.strip().lower()` then version-suffix stripping, applied to the
matched group (or the fallback candidate). -/
def arxivFinal (m : List Char) : List Char :=
  stripVersionSuffix ((pyStrip m).map Char.toLower)

/-- Embeds `normalize_arxiv_id`: clean the raw value, take the first pattern match
(falling back to the cleaned string itself), lowercase, strip a trailing
version suffix. -/
def normalize_arxiv_id : Option String → Option String
  | none => none
  | some raw =>
    if raw = "" then none
    else if (arxivCleanup raw).isEmpty then none
    else if (arxivFinal ((arxivSearch (arxivCleanup raw)).getD (arxivCleanup raw))).isEmpty
      then none
    else some ⟨arxivFinal ((arxivSearch (arxivCleanup raw)).getD (arxivCleanup raw))⟩

/-- Embeds `extract_arxiv_id`: `normalize_arxiv_id` guarded on non-empty text. -/
def extract_arxiv_id (s : String) : Option String :=
  if s = "" then none else normalize_arxiv_id (some s)

example : normalize_arxiv_id (some "arXiv:2301.00001v2") = some "2301.00001" := by decide
example : normalize_arxiv_id (some "https://arxiv.org/pdf/2301.00001v2.pdf") =
    some "2301.00001" := by decide
example : normalize_arxiv_id (some "cs.LG/0701234v1") = some "cs.lg/0701234" := by decide
example : normalize_arxiv_id (some "hello world") = some "hello world" := by decide
example : normalize_arxiv_id (some "v42") = none := by decide

/-- Embeds `CANONICAL_VENUE_MARKER_PREFIX`. -/
def CANONICAL_VENUE_MARKER_PREFIX : String := "__canonical_venue__:"

/-- Embeds `CANONICAL_VENUE_ALIAS_GROUPS`. -/
def CANONICAL_VENUE_ALIAS_GROUPS : List (String × List String) :=
  [("ieee-sp",
    ["ieee s p", "ieee sp", "s p", "sp", "oakland", "ieee security and privacy",
     "ieee symposium on security and privacy", "symposium on security and privacy"]),
   ("usenix-security",
    ["usenix security", "usenix security symposium", "usenix sec"]),
   ("acm-ccs",
    ["ccs", "acm ccs", "acm conference on computer and communications security",
     "conference on computer and communications security",
     "computer and communications security"]),
   ("ndss",
    ["ndss", "ndss symposium", "network and distributed system security symposium",
     "network and distributed system security"]),
   ("kdd",
    ["kdd", "acm kdd", "sigkdd", "sigkdd conference on knowledge discovery and data mining",
     "conference on knowledge discovery and data mining",
     "knowledge discovery and data mining"])]

/-- Embeds `CANONICAL_VENUE_STRONG_TERMS`. -/
def CANONICAL_VENUE_STRONG_TERMS : List (String × List String) :=
  [("ieee-sp",
    ["ieee symposium on security and privacy", "ieee security and privacy",
     "symposium on security and privacy", "oakland"]),
   ("usenix-security",
    ["usenix security symposium", "usenix security"]),
   ("acm-ccs",
    ["acm conference on computer and communications security",
     "conference on computer and communications security",
     "computer and communications security", "acm ccs"]),
   ("ndss",
    ["network and distributed system security symposium",
     "network and distributed system security", "ndss"]),
   ("kdd",
    ["acm sigkdd conference on knowledge discovery and data mining",
     "conference on knowledge discovery and data mining",
     "knowledge discovery and data mining", "sigkdd", "kdd"])]

/-- Embeds `CANONICAL_VENUE_TOKEN_RULES`. -/
def CANONICAL_VENUE_TOKEN_RULES : List (String × List (List String)) :=
  [("ieee-sp",
    [["oakland"], ["ieee", "security", "privacy"], ["symposium", "security", "privacy"],
     ["ieee", "s", "p"], ["ieee", "sp"]]),
   ("usenix-security",
    [["usenix", "security"], ["usenix", "sec"]]),
   ("acm-ccs",
    [["acm", "ccs"], ["ccs"], ["computer", "communications", "security"]]),
   ("ndss",
    [["ndss"], ["network", "distributed", "system", "security"]]),
   ("kdd",
    [["kdd"], ["sigkdd"], ["knowledge", "discovery", "data", "mining"]])]

/-- Association-list get with a default (`dict.get(k, default)`). -/
def aget {β : Type} (l : List (String × β)) (k : String) (d : β) : β :=
  match l.lookup k with
  | some v => v
  | none => d

/-- Embeds `_build_canonical_venue_alias_map`: normalized alias → canonical name.
Later inserts overwrite earlier ones, as in the Python dict build. -/
def CANONICAL_VENUE_ALIAS_MAP : List (String × String) :=
  CANONICAL_VENUE_ALIAS_GROUPS.foldl (fun acc p =>
    p.2.foldl (fun acc alias0 =>
      let n := normalize_venue alias0
      if strTruthy n then
        (acc.filter (fun q => q.1 ≠ n)) ++ [(n, p.1)]
      else acc) acc) []

/-- Embeds `canonical_venue_marker`. -/
def canonical_venue_marker (canonicalName : String) : String :=
  CANONICAL_VENUE_MARKER_PREFIX ++ canonicalName

/-- Embeds `parse_canonical_venue_marker`. -/
def parse_canonical_venue_marker (term : String) : Option String :=
  if CANONICAL_VENUE_MARKER_PREFIX.data.isPrefixOf term.data then
    some ⟨term.data.drop CANONICAL_VENUE_MARKER_PREFIX.data.length⟩
  else none

/-- Embeds `expand_canonical_venue_alias`. -/
def expand_canonical_venue_alias (term : String) : List String :=
  match CANONICAL_VENUE_ALIAS_MAP.lookup term with
  | none => [term]
  | some canonicalName =>
    (aget CANONICAL_VENUE_STRONG_TERMS canonicalName []).foldl
      (fun expanded strongTerm =>
        if strongTerm ∈ expanded then expanded else expanded ++ [strongTerm])
      [canonical_venue_marker canonicalName]

/-- Embeds `normalize_requested_venue_terms`. -/
def normalize_requested_venue_terms (rawTerms : List String) : List String :=
  (rawTerms.foldl (fun (st : List String × List String) rawTerm =>
    let n := normalize_venue rawTerm
    if !strTruthy n then st
    else (expand_canonical_venue_alias n).foldl (fun st t =>
      if t ∈ st.2 then st else (st.1 ++ [t], t :: st.2)) st) ([], [])).1

/-- Embeds `venue_matches_canonical_alias`: some registered token group for the
canonical venue is fully contained in the venue token set. -/
def venue_matches_canonical_alias (venueTokens : List String) (canonicalName : String) : Bool :=
  (aget CANONICAL_VENUE_TOKEN_RULES canonicalName []).any
    (fun tokenGroup => tokenGroup.all (fun t => t ∈ venueTokens))

/-- Python substring test (`needle in hay`). -/
def strContains (hay needle : String) : Bool :=
  (hay.data.tails).any (fun t => needle.data.isPrefixOf t)

/-- Embeds `venue_term_matches`. -/
def venue_term_matches (venue : String) (venueTokens : List String) (term : String) : Bool :=
  match parse_canonical_venue_marker term with
  | some canonicalName => venue_matches_canonical_alias venueTokens canonicalName
  | none => strContains venue term || strContains term venue

example : normalize_requested_venue_terms ["IEEE SP"] =
    ["__canonical_venue__:ieee-sp", "ieee symposium on security and privacy",
     "ieee security and privacy", "symposium on security and privacy", "oakland"] := by decide

/-- Left rotation within 32 bits on `Nat` values below 2^32. -/
def rotl32 (n x : Nat) : Nat := ((x <<< n) ||| (x >>> (32 - n))) % 4294967296

/-- Bitwise complement within 32 bits. -/
def not32 (x : Nat) : Nat := x ^^^ 4294967295

/-- UTF-8 bytes of a string. The strings hashed by the script (normalized
titles and fallback key material) are ASCII, where UTF-8 coincides with the
code points. -/
def strBytes (s : String) : List Nat := s.data.map Char.toNat

/-- SHA-1 message padding: append `0x80`, zero bytes up to 56 mod 64, and
the bit length as an 8-byte big-endian integer. -/
def sha1Pad (msg : List Nat) : List Nat :=
  let len := msg.length
  let k := (119 - len % 64) % 64
  msg ++ 128 :: List.replicate k 0
      ++ (List.range 8).map (fun i => (8 * len) >>> (8 * (7 - i)) % 256)

/-- Split into 64-byte chunks (fuel-driven structural recursion). -/
def chunks64Go : Nat → List Nat → List (List Nat)
  | 0, _ => []
  | _ + 1, [] => []
  | fuel + 1, l => l.take 64 :: chunks64Go fuel (l.drop 64)

def chunks64 (l : List Nat) : List (List Nat) := chunks64Go l.length l

/-- The 16 initial 32-bit words of a 64-byte chunk, big-endian. -/
def sha1Words (chunk : List Nat) : List Nat :=
  (List.range 16).map (fun i =>
    chunk.getD (4 * i) 0 * 16777216 + chunk.getD (4 * i + 1) 0 * 65536
      + chunk.getD (4 * i + 2) 0 * 256 + chunk.getD (4 * i + 3) 0)

/-- Extend 16 words to 80 by the SHA-1 recurrence. -/
def sha1ExpandGo : Nat → List Nat → List Nat
  | 0, w => w
  | n + 1, w =>
    let i := w.length
    let x := rotl32 1 ((w.getD (i - 3) 0) ^^^ (w.getD (i - 8) 0)
      ^^^ (w.getD (i - 14) 0) ^^^ (w.getD (i - 16) 0))
    sha1ExpandGo n (w ++ [x])

/-- The 80 SHA-1 rounds for one chunk. -/
def sha1Rounds (w : List Nat) (h : Nat × Nat × Nat × Nat × Nat) :
    Nat × Nat × Nat × Nat × Nat :=
  w.enum.foldl (fun st iw =>
    let i := iw.1
    let wi := iw.2
    let a := st.1
    let b := st.2.1
    let c := st.2.2.1
    let d := st.2.2.2.1
    let e := st.2.2.2.2
    let f :=
      if i < 20 then (b &&& c) ||| (not32 b &&& d)
      else if i < 40 then b ^^^ c ^^^ d
      else if i < 60 then (b &&& c) ||| (b &&& d) ||| (c &&& d)
      else b ^^^ c ^^^ d
    let k :=
      if i < 20 then 1518500249
      else if i < 40 then 1859775393
      else if i < 60 then 2400959708
      else 3395469782
    let t := (rotl32 5 a + f + e + k + wi) % 4294967296
    (t, a, rotl32 30 b, c, d)) h

/-- Process one 64-byte chunk. -/
def sha1Chunk (h : Nat × Nat × Nat × Nat × Nat) (chunk : List Nat) :
    Nat × Nat × Nat × Nat × Nat :=
  let w := sha1ExpandGo 64 (sha1Words chunk)
  let r := sha1Rounds w h
  ((h.1 + r.1) % 4294967296,
   (h.2.1 + r.2.1) % 4294967296,
   (h.2.2.1 + r.2.2.1) % 4294967296,
   (h.2.2.2.1 + r.2.2.2.1) % 4294967296,
   (h.2.2.2.2 + r.2.2.2.2) % 4294967296)

def hexCh (n : Nat) : Char := "0123456789abcdef".data.getD n '0'

/-- Eight lowercase hex digits of a 32-bit word. -/
def toHex8 (n : Nat) : List Char :=
  (List.range 8).map (fun i => hexCh ((n >>> (4 * (7 - i))) % 16))

/-- Embeds `hashlib.sha1(bytes).hexdigest()`: the full 40-hex-character digest. -/
def sha1Hex (msg : List Nat) : String :=
  let h := (chunks64 (sha1Pad msg)).foldl sha1Chunk
    (1732584193, 4023233417, 2562383102, 271733878, 3285377520)
  ⟨toHex8 h.1 ++ toHex8 h.2.1 ++ toHex8 h.2.2.1 ++ toHex8 h.2.2.2.1 ++ toHex8 h.2.2.2.2⟩

example : sha1Hex (strBytes "abc") = "a9993e364706816aba3e25717850c26c9cd0d89d" := by decide
example : sha1Hex (strBytes "") = "da39a3ee5e6b4b0d3255bfef95601890afd80709" := by decide

/-- A provider-shaped raw record (`RawRecord` in the spec); `year` is
modelled as an already-coerced optional integer. -/
structure RawPaper where
  title : Option String
  year : Option Int
  venue : Option String
  authors : List String
  abstract : Option String
  doi : Option String
  arxiv_id : Option String
  url : Option String
  pdf_urls : List String
  source : Option String
  source_id : Option String
deriving DecidableEq, Repr

/-- Embeds `coerce_year`: keep integers in [1900, 2100]. -/
def coerce_year : Option Int → Option Int
  | none => none
  | some y => if 1900 ≤ y ∧ y ≤ 2100 then some y else none

/-- Valid `urlparse` scheme: a letter followed by letters, digits, `+`,
`-`, `.`. -/
def urlSchemeValid (p : List Char) : Bool :=
  match p with
  | [] => false
  | c :: cs => c.isAlpha && cs.all (fun d => d.isAlphanum || d = '+' || d = '-' || d = '.')

/-- The (lowercased) scheme `urlparse` extracts, `[]` when there is none. -/
def urlScheme (s : List Char) : List Char :=
  if s.contains ':' then
    let p := s.takeWhile (fun c => c ≠ ':')
    if urlSchemeValid p then p.map Char.toLower else []
  else []

/-- Embeds `clean_url`: keep only stripped URLs with an http/https scheme. -/
def clean_url : Option String → Option String
  | none => none
  | some u =>
    if u = "" then none
    else
      let cleaned := pyStrip u.data
      if cleaned.isEmpty then none
      else
        let sch := urlScheme cleaned
        if sch = "http".data ∨ sch = "https".data then some ⟨cleaned⟩ else none

def lowerL (l : List Char) : List Char := l.map Char.toLower

def containsL (hay needle : List Char) : Bool :=
  hay.tails.any (fun t => needle.isPrefixOf t)

/-- Embeds `is_probably_pdf_url`. -/
def is_probably_pdf_url (url : String) : Bool :=
  let lowered := lowerL url.data
  if ".pdf".data.isSuffixOf lowered then true
  else if containsL lowered ".pdf?".data then true
  else if containsL lowered "download=1".data && containsL lowered "pdf".data then true
  else false

/-- Remove `<[^>]+>` tags, replacing each by one space (fuel-driven
scanner with the same leftmost greedy semantics as `re.sub`). -/
def stripTagsGo : Nat → List Char → List Char
  | 0, l => l
  | _ + 1, [] => []
  | fuel + 1, '<' :: rest =>
    let seg := rest.takeWhile (fun c => c ≠ '>')
    (match rest.drop seg.length with
     | '>' :: r2 =>
       if seg.isEmpty then '<' :: stripTagsGo fuel rest
       else ' ' :: stripTagsGo fuel r2
     | _ => '<' :: stripTagsGo fuel rest)
  | fuel + 1, c :: rest => c :: stripTagsGo fuel rest

/-- Embeds `strip_html_tags` (HTML entity unescaping modelled as identity). -/
def strip_html_tags : Option String → Option String
  | none => none
  | some t =>
    if t = "" then none
    else some (normalize_whitespace ⟨stripTagsGo t.data.length t.data⟩)

/-- Embeds `normalize_authors`: whitespace-collapse, case-insensitive dedup,
first-seen order (`casefold` modelled as ASCII lowercasing). -/
def normalize_authors (authors : List String) : List String :=
  (authors.foldl (fun (st : List String × List String) author =>
    let n := normalize_whitespace author
    if !strTruthy n then st
    else
      let lowered : String := ⟨lowerL n.data⟩
      if lowered ∈ st.2 then st else (st.1 ++ [n], lowered :: st.2)) ([], [])).1

/-- Embeds `append_unique`: append each truthy, not-yet-present value. -/
def append_unique (items : List String) (values : List String) : List String :=
  values.foldl (fun acc v => if !strTruthy v || v ∈ acc then acc else acc ++ [v]) items

/-- The canonical record shape produced by `canonicalize_raw_paper`
(`paper_id` is only assigned at finalization and lives in `OutPaper`). -/
structure Paper where
  title : String
  title_norm : String
  year : Option Int
  venue : String
  authors : List String
  abstract : Option String
  doi : Option String
  arxiv_id : Option String
  url : Option String
  pdf_urls : List String
  sources : List String
  source_ids : List (String × String)
deriving DecidableEq, Repr

/-- Embeds `canonicalize_raw_paper`. -/
def canonicalize_raw_paper (raw : RawPaper) : Option Paper :=
  let title := normalize_whitespace (raw.title.getD "")
  if !strTruthy title then none
  else
    let doi := normalize_doi raw.doi
    let arxiv_id :=
      match normalize_arxiv_id raw.arxiv_id with
      | some a => some a
      | none => extract_arxiv_id (raw.url.getD "")
    let url := clean_url raw.url
    let source :=
      match raw.source with
      | some s => if s = "" then "unknown" else s
      | none => "unknown"
    let pdfs0 := raw.pdf_urls.foldl (fun acc cand =>
      match clean_url (some cand) with
      | some c => if strTruthy c then acc ++ [c] else acc
      | none => acc) []
    let pdfs :=
      match url with
      | some u => if strTruthy u && is_probably_pdf_url u then pdfs0 ++ [u] else pdfs0
      | none => pdfs0
    some
      { title := title
        title_norm := normalize_title title
        year := coerce_year raw.year
        venue := normalize_whitespace (raw.venue.getD "")
        authors := normalize_authors raw.authors
        abstract := strip_html_tags raw.abstract
        doi := doi
        arxiv_id := arxiv_id
        url := url
        pdf_urls := append_unique [] pdfs
        sources := [source]
        source_ids :=
          match raw.source_id with
          | some sid => if sid = "" then [] else [(source, sid)]
          | none => [] }

/-- Embeds `paper_passes_filters` (year filter and venue filter on a raw record;
the `years` argument mirrors the optional year set). -/
def paper_passes_filters (paper : RawPaper) (venueTerms : List String)
    (years : Option (List Int)) : Bool :=
  (match years with
   | some ys =>
     match coerce_year paper.year with
     | none => false
     | some y => decide (y ∈ ys)
   | none => true) &&
  (if venueTerms.isEmpty then true
   else
     let venue := normalize_venue (paper.venue.getD "")
     if !strTruthy venue then false
     else
       let venueTokens : List String :=
         ((wsSplit venue.data).filter (fun w => !w.isEmpty)).map (fun w => (⟨w⟩ : String))
       venueTerms.any (fun term => venue_term_matches venue venueTokens term))

def pyOptStr : Option String → String
  | none => "None"
  | some s => s

def singleQuote : Char := '\x27'

/-- Python `repr` of a string without embedded quotes. -/
def pyStrRepr (s : String) : String := ⟨singleQuote :: s.data ++ [singleQuote]⟩

/-- Python `str` of a list of strings, as interpolated by the f-string in
`dedup_keys`. -/
def pyListRepr (l : List String) : String :=
  "[" ++ String.intercalate ", " (l.map pyStrRepr) ++ "]"

/-- The f-string hashed for the fallback dedup key. -/
def fallbackKeyString (p : Paper) : String :=
  p.title ++ "|" ++ pyOptStr p.url ++ "|" ++ pyListRepr p.sources

/-- Embeds `dedup_keys`: (kind, value) join keys; fallback hash when no doi,
arXiv id or normalized title is available. -/
def dedup_keys (p : Paper) : List (String × String) :=
  let keys :=
    (if optTruthy p.doi then [(("doi" : String), p.doi.getD "")] else [])
    ++ (if optTruthy p.arxiv_id then [(("arxiv" : String), p.arxiv_id.getD "")] else [])
    ++ (if strTruthy p.title_norm then [(("title" : String), p.title_norm)] else [])
  if keys.isEmpty then [(("fallback" : String), sha1Hex (strBytes (fallbackKeyString p)))]
  else keys

/-- Embeds `better_text` on optional strings (the `abstract` field). -/
def better_text (current candidate : Option String) : Option String :=
  if !optTruthy candidate then current
  else if !optTruthy current then candidate
  else if (candidate.getD "").length > (current.getD "").length then candidate else current

/-- Embeds `better_text` on plain strings plus the `or ""` applied at the call
sites for `title` and `venue`. -/
def betterStr (current candidate : String) : String :=
  if !strTruthy candidate then current
  else if !strTruthy current then candidate
  else if candidate.length > current.length then candidate else current

def lookupA {α β : Type} [DecidableEq α] (k : α) : List (α × β) → Option β
  | [] => none
  | (k0, v0) :: rest => if k = k0 then some v0 else lookupA k rest

def setA {α β : Type} [DecidableEq α] (k : α) (v : β) : List (α × β) → List (α × β)
  | [] => [(k, v)]
  | (k0, v0) :: rest => if k = k0 then (k, v) :: rest else (k0, v0) :: setA k v rest

def eraseA {α β : Type} [DecidableEq α] (k : α) : List (α × β) → List (α × β)
  | [] => []
  | (k0, v0) :: rest => if k = k0 then rest else (k0, v0) :: eraseA k rest

/-- Embeds `dict.setdefault`-style union for `source_ids`. -/
def mergeSourceIds (target incoming : List (String × String)) : List (String × String) :=
  incoming.foldl (fun acc p =>
    if (lookupA p.1 acc).isSome then acc else acc ++ [p]) target

/-- Embeds `merge_papers(target, incoming)`, as a pure function on the target. -/
def merge_papers (target incoming : Paper) : Paper :=
  let title := betterStr target.title incoming.title
  { title := title
    title_norm := normalize_title title
    venue := betterStr target.venue incoming.venue
    abstract := better_text target.abstract incoming.abstract
    year :=
      match coerce_year target.year, coerce_year incoming.year with
      | none, some iy => some iy
      | some ty, some iy => some (min ty iy)
      | _, _ => target.year
    doi := if !optTruthy target.doi && optTruthy incoming.doi then incoming.doi else target.doi
    arxiv_id :=
      if !optTruthy target.arxiv_id && optTruthy incoming.arxiv_id then incoming.arxiv_id
      else target.arxiv_id
    url := if !optTruthy target.url && optTruthy incoming.url then incoming.url else target.url
    authors := append_unique target.authors incoming.authors
    pdf_urls := append_unique target.pdf_urls incoming.pdf_urls
    sources := append_unique target.sources incoming.sources
    source_ids := mergeSourceIds target.source_ids incoming.source_ids }

/-- The resolver state of `deduplicate_papers`. -/
structure DedupState where
  records : List (Nat × Paper)
  keyIndex : List ((String × String) × Nat)
  nextId : Nat
deriving DecidableEq, Repr

def emptyPaper : Paper :=
  { title := "", title_norm := "", year := none, venue := "", authors := [],
    abstract := none, doi := none, arxiv_id := none, url := none,
    pdf_urls := [], sources := [], source_ids := [] }

def getRecord (st : DedupState) (rid : Nat) : Paper :=
  (lookupA rid st.records).getD emptyPaper

def insertSorted (n : Nat) : List Nat → List Nat
  | [] => [n]
  | m :: rest => if n ≤ m then n :: m :: rest else m :: insertSorted n rest

def sortNat (l : List Nat) : List Nat := l.foldr insertSorted []

/-- Embeds `sorted(matched)`: distinct live cluster ids referenced by the keys,
in ascending order (stale keys are ignored by the `in records` guard). -/
def matchedIds (st : DedupState) (keys : List (String × String)) : List Nat :=
  sortNat ((keys.filterMap (fun k =>
    match lookupA k st.keyIndex with
    | some rid => if (lookupA rid st.records).isSome then some rid else none
    | none => none)).dedup)

/-- Re-point every given key to `rid` in the key index. -/
def repointKeys (keys : List (String × String)) (rid : Nat)
    (ix : List ((String × String) × Nat)) : List ((String × String) × Nat) :=
  keys.foldl (fun acc k => setA k rid acc) ix

/-- Merge cluster `other` into cluster `rid`: fold the absorbed record in,
drop it from the record map, and rewrite every key it owned. -/
def absorbCluster (st : DedupState) (rid other : Nat) : DedupState :=
  let merged := merge_papers (getRecord st rid) (getRecord st other)
  { records := setA rid merged (eraseA other st.records)
    keyIndex := st.keyIndex.map (fun e => if e.2 = other then (e.1, rid) else e)
    nextId := st.nextId }

/-- The per-record body of the `deduplicate_papers` loop. -/
def processCanonical (st : DedupState) (canonical : Paper) : DedupState :=
  let keys := dedup_keys canonical
  match matchedIds st keys with
  | [] =>
    let rid := st.nextId
    let st1 : DedupState :=
      { records := setA rid canonical st.records
        keyIndex := st.keyIndex
        nextId := st.nextId + 1 }
    { st1 with keyIndex := repointKeys (dedup_keys (getRecord st1 rid)) rid st1.keyIndex }
  | rid :: others =>
    let st1 := others.foldl (fun acc other => absorbCluster acc rid other) st
    let st2 : DedupState :=
      { records := setA rid (merge_papers (getRecord st1 rid) canonical) st1.records
        keyIndex := st1.keyIndex
        nextId := st1.nextId }
    { st2 with keyIndex := repointKeys (dedup_keys (getRecord st2 rid)) rid st2.keyIndex }

def processRaw (st : DedupState) (raw : RawPaper) : DedupState :=
  match canonicalize_raw_paper raw with
  | none => st
  | some c => processCanonical st c

def initDedupState : DedupState := { records := [], keyIndex := [], nextId := 1 }

def dedupStateOf (raws : List RawPaper) : DedupState :=
  raws.foldl processRaw initDedupState

/-- The finalized output shape (canonical record plus `paper_id`, minus
the popped `title_norm`). -/
structure OutPaper where
  paper_id : String
  title : String
  year : Option Int
  venue : String
  authors : List String
  abstract : Option String
  doi : Option String
  arxiv_id : Option String
  url : Option String
  pdf_urls : List String
  sources : List String
  source_ids : List (String × String)
deriving DecidableEq, Repr

/-- Lexicographic order on string pairs (Python tuple ordering used by
`sorted` on dict items). -/
def pairLe (p q : String × String) : Bool :=
  decide (p.1 < q.1) || (decide (p.1 = q.1) && decide (p.2 ≤ q.2))

def insertSortedPair (p : String × String) :
    List (String × String) → List (String × String)
  | [] => [p]
  | q :: rest => if pairLe p q then p :: q :: rest else q :: insertSortedPair p rest

def sortPairs (l : List (String × String)) : List (String × String) :=
  l.foldr insertSortedPair []

/-- The finalization applied to each surviving cluster: re-normalized
authors, sorted `source_ids`, and the preference-ordered `paper_id`. -/
def finalizeRecord (p : Paper) : OutPaper :=
  { paper_id :=
      if optTruthy p.doi then "doi:" ++ p.doi.getD ""
      else if optTruthy p.arxiv_id then "arxiv:" ++ p.arxiv_id.getD ""
      else "title:" ++ (⟨(sha1Hex (strBytes p.title_norm)).data.take 16⟩ : String)
    title := p.title
    year := p.year
    venue := p.venue
    authors := normalize_authors p.authors
    abstract := p.abstract
    doi := p.doi
    arxiv_id := p.arxiv_id
    url := p.url
    pdf_urls := append_unique p.pdf_urls []
    sources := append_unique p.sources []
    source_ids := sortPairs p.source_ids }

/-- Embeds `deduplicate_papers`: canonicalize and resolve each raw record in
arrival order, then emit finalized clusters in ascending cluster-id
order. -/
def deduplicate_papers (raws : List RawPaper) : List OutPaper :=
  let st := dedupStateOf raws
  (sortNat (st.records.map Prod.fst)).map (fun rid => finalizeRecord (getRecord st rid))

/-! Section: rate-limited client model.

Sleeping and the RNG are modelled functionally: each simulated attempt is a
scripted response, `random.uniform(0, 0.35)` is an explicit jitter input,
and the result records the sleep durations the loop would perform.
Float arithmetic is modelled over `ℚ` (exact for the operations involved).
-/

def RETRYABLE_STATUS_CODES : List Nat := [408, 425, 429, 500, 502, 503, 504]

def digitsVal (l : List Char) : Nat := l.foldl (fun a c => 10 * a + (c.toNat - 48)) 0

/-- Sign, integer digits and fraction digits of a plain decimal literal
(`none` when the stripped input is not of that shape). -/
def parseFloatParts (s : String) : Option (Bool × List Char × List Char) :=
  let l := pyStrip s.data
  let neg : Bool := match l with | '-' :: _ => true | _ => false
  let l2 := match l with
    | '-' :: r => r
    | '+' :: r => r
    | _ => l
  let ip := l2.takeWhile Char.isDigit
  match l2.drop ip.length with
  | [] => if ip.isEmpty then none else some (neg, ip, [])
  | '.' :: fp0 =>
    let fp := fp0.takeWhile Char.isDigit
    if !(fp0.drop fp.length).isEmpty then none
    else if ip.isEmpty && fp.isEmpty then none
    else some (neg, ip, fp)
  | _ => none

/-- Python `float()` restricted to plain decimal literals (sign, integer
part, optional fraction), valued exactly in `ℚ`; exponent and special
forms are out of scope for these claims. -/
def parsePyFloat (s : String) : Option ℚ :=
  (parseFloatParts s).map (fun t =>
    (if t.1 then (-1 : ℚ) else 1)
      * ((digitsVal t.2.1 : ℚ) + (digitsVal t.2.2 : ℚ) / (10 : ℚ) ^ t.2.2.length))

/-- Embeds `PoliteHttpClient._retry_sleep`: the `Retry-After` header wins when
parseable, otherwise exponential backoff `0.9 * 2^(attempt-1)` plus jitter;
both are clamped below by `min_interval`. -/
def retry_sleep (minInterval : ℚ) (attempt : Nat)
    (responseHeaders : Option (List (String × String))) (jitter : ℚ) : ℚ :=
  let retryAfterSeconds : Option ℚ :=
    match responseHeaders with
    | none => none
    | some hs =>
      if hs.isEmpty then none
      else
        match lookupA "Retry-After" hs with
        | none => none
        | some ra => if ra = "" then none else parsePyFloat ra
  match retryAfterSeconds with
  | some r => max minInterval r
  | none => max minInterval ((9 : ℚ) / 10 * 2 ^ (attempt - 1) + jitter)

/-- One scripted outcome of a single HTTP attempt. -/
inductive HttpAttempt where
  | success : Nat → HttpAttempt
  | httpError : Nat → List (String × String) → HttpAttempt
  | transportError : HttpAttempt
deriving DecidableEq, Repr

/-- Result of the modelled `PoliteHttpClient.request` loop, carrying the
sleeps performed before retries in order. -/
inductive ReqOutcome where
  | ok : Nat → List ℚ → ReqOutcome
  | httpRaise : Nat → List ℚ → ReqOutcome
  | transportRaise : List ℚ → ReqOutcome
  | noScript : List ℚ → ReqOutcome
  | exhausted : List ℚ → ReqOutcome
deriving DecidableEq, Repr

/-- The `for attempt in range(1, retries + 1)` body of
`PoliteHttpClient.request`: retry (with a sleep) on a retryable HTTP status
or a transport error while attempts remain, raise otherwise. -/
def requestGo (minI : ℚ) (retries : Nat) :
    Nat → Nat → List HttpAttempt → List ℚ → List ℚ → ReqOutcome
  | 0, _, _, _, sleeps => .exhausted sleeps
  | fuel + 1, attempt, responses, jitters, sleeps =>
    match responses with
    | [] => .noScript sleeps
    | resp :: rest =>
      match resp with
      | .success st => .ok st sleeps
      | .httpError st hs =>
        if st ∈ RETRYABLE_STATUS_CODES ∧ attempt < retries then
          let s := retry_sleep minI attempt (some hs) (jitters.headD 0)
          requestGo minI retries fuel (attempt + 1) rest jitters.tail (sleeps ++ [s])
        else .httpRaise st sleeps
      | .transportError =>
        if attempt < retries then
          let s := retry_sleep minI attempt none (jitters.headD 0)
          requestGo minI retries fuel (attempt + 1) rest jitters.tail (sleeps ++ [s])
        else .transportRaise sleeps

/-- The modelled request loop (`CollectError` on loop exhaustion is
`.exhausted`). -/
def request_model (minI : ℚ) (retries : Nat) (responses : List HttpAttempt)
    (jitters : List ℚ) : ReqOutcome :=
  requestGo minI retries retries 1 responses jitters []

/-! Section: concrete fixtures used by witnesses and counterexamples. -/

def rawA : RawPaper :=
  { title := some "Graph Mining At Scale", year := some 2021, venue := some "KDD",
    authors := ["Ann Lee"], abstract := none, doi := some "10.1145/11111",
    arxiv_id := none, url := none, pdf_urls := [], source := some "openalex",
    source_id := some "W1" }

def rawB : RawPaper :=
  { title := some "Graph Mining Systems", year := some 2022, venue := some "arXiv",
    authors := ["Bo Chen"], abstract := none, doi := none,
    arxiv_id := some "2301.00001", url := none, pdf_urls := [], source := some "arxiv",
    source_id := some "A1" }

def rawC : RawPaper :=
  { title := some "Scalable Graph Mining Methodology", year := some 2021,
    venue := some "KDD 2021", authors := ["Ann Lee", "Bo Chen"], abstract := none,
    doi := some "10.1145/11111", arxiv_id := some "2301.00001v2", url := none,
    pdf_urls := [], source := some "crossref", source_id := some "C9" }

def rawD : RawPaper :=
  { title := some "An Unrelated Treatise", year := some 2019, venue := some "NDSS",
    authors := ["Dee Dee"], abstract := none, doi := none, arxiv_id := none,
    url := none, pdf_urls := [], source := some "openreview", source_id := some "R4" }

def rawP : RawPaper :=
  { title := some "Pine", year := some 2001, venue := some "Va", authors := ["Ann"],
    abstract := none, doi := some "10.1/z", arxiv_id := none, url := none,
    pdf_urls := [], source := some "s1", source_id := some "p1" }

def rawQ : RawPaper :=
  { title := some "Maple", year := some 2002, venue := some "Vbb", authors := ["Bob"],
    abstract := none, doi := some "10.1/z", arxiv_id := none, url := none,
    pdf_urls := [], source := some "s2", source_id := some "q1" }

def rawS : RawPaper :=
  { title := some "Spruce", year := some 2003, venue := some "Vcccc",
    authors := ["Cid"], abstract := none, doi := some "10.9/q", arxiv_id := none,
    url := none, pdf_urls := [], source := some "s3", source_id := some "t1" }

def pY2021 : Paper := { emptyPaper with year := some 2021 }
def pY2023 : Paper := { emptyPaper with year := some 2023 }

def pDoi : Paper :=
  { emptyPaper with
    title := "Alpha"
    title_norm := "alpha"
    doi := some "10.5/abc"
    source_ids := [("b", "2"), ("a", "1")] }

def pArx : Paper :=
  { emptyPaper with title := "Beta", title_norm := "beta", arxiv_id := some "2302.12345" }

def pTitleA : Paper :=
  { emptyPaper with title := "Secure Systems Design", title_norm := "secure systems design" }

def pTitleB : Paper :=
  { emptyPaper with
    title := "SECURE SYSTEMS DESIGN!!"
    venue := "X"
    title_norm := "secure systems design" }

/-- The canonicalization of a raw record, defaulting to `emptyPaper`
(used only on records known to canonicalize successfully). -/
def canonOf (r : RawPaper) : Paper := (canonicalize_raw_paper r).getD emptyPaper

def rawNV : RawPaper := { rawA with venue := none }

/-- A small resolver state used to exercise the merge re-pointing rule. -/
def stFix : DedupState :=
  { records := [(1, pDoi), (2, pArx)]
    keyIndex := [(("doi", "10.5/abc"), 1), (("arxiv", "2302.12345"), 2)]
    nextId := 3 }

/-- The key-index consistency invariant of claim C3: every index entry
points at a cluster id still present in the record map. -/
def keyIndexConsistent (st : DedupState) : Prop :=
  ∀ e ∈ st.keyIndex, (lookupA e.2 st.records).isSome = true

/-- The pairwise side conditions of claim C2 on two canonical records: no
equal-length non-empty values for the same text field, distinct years. -/
def c2PairOk (p q : Paper) : Bool :=
  (!(strTruthy p.title && strTruthy q.title && p.title.length == q.title.length))
  && (!(strTruthy p.venue && strTruthy q.venue && p.venue.length == q.venue.length))
  && (!(optTruthy p.abstract && optTruthy q.abstract
        && (p.abstract.getD "").length == (q.abstract.getD "").length))
  && (p.year != q.year)

/-- The venue token set (`set(venue.split())`) of a raw record, as a
list. -/
def venueTokensOf (paper : RawPaper) : List String :=
  ((wsSplit (normalize_venue ((paper.venue).getD "")).data).filter
      (fun w => !w.isEmpty)).map (fun w => (⟨w⟩ : String))

/-! Section: association-list and sorting lemmas. -/

theorem lookupA_setA {α β : Type} [DecidableEq α] (k k0 : α) (v : β) (l : List (α × β)) :
    lookupA k (setA k0 v l) = if k = k0 then some v else lookupA k l := by
  induction l with
  | nil => by_cases h : k = k0 <;> simp [setA, lookupA, h]
  | cons p rest ih =>
    obtain ⟨k1, v1⟩ := p
    by_cases h0 : k0 = k1
    · subst h0
      by_cases h : k = k0 <;> simp [setA, lookupA, h]
    · by_cases h : k = k1
      · subst h
        simp [setA, lookupA, h0, Ne.symm h0, ih]
      · simp [setA, lookupA, h0, h, ih]

theorem lookupA_eraseA_ne {α β : Type} [DecidableEq α] (k k0 : α) (l : List (α × β))
    (h : k ≠ k0) : lookupA k (eraseA k0 l) = lookupA k l := by
  induction l with
  | nil => rfl
  | cons p rest ih =>
    obtain ⟨k1, v1⟩ := p
    by_cases h0 : k0 = k1
    · subst h0
      simp [eraseA, lookupA, h]
    · by_cases h1 : k = k1 <;> simp [eraseA, lookupA, h0, h1, ih]

theorem mem_setA {α β : Type} [DecidableEq α] (e : α × β) (k : α) (v : β)
    (l : List (α × β)) (h : e ∈ setA k v l) : e = (k, v) ∨ e ∈ l := by
  induction l with
  | nil => simpa [setA] using h
  | cons p rest ih =>
    obtain ⟨k1, v1⟩ := p
    by_cases h0 : k = k1
    · subst h0
      rcases (by simpa [setA] using h : e = (k, v) ∨ e ∈ rest) with h1 | h1
      · exact Or.inl h1
      · exact Or.inr (List.mem_cons_of_mem _ h1)
    · rcases (by simpa [setA, h0] using h : e = (k1, v1) ∨ e ∈ setA k v rest) with h1 | h1
      · exact Or.inr (by simp [h1])
      · rcases ih h1 with h2 | h2
        · exact Or.inl h2
        · exact Or.inr (List.mem_cons_of_mem _ h2)

theorem lookupA_repointKeys (keys : List (String × String)) (rid : Nat)
    (ix : List ((String × String) × Nat)) (k : String × String) :
    lookupA k (repointKeys keys rid ix)
      = if k ∈ keys then some rid else lookupA k ix := by
  induction keys generalizing ix with
  | nil => simp [repointKeys]
  | cons k0 ks ih =>
    have : repointKeys (k0 :: ks) rid ix = repointKeys ks rid (setA k0 rid ix) := rfl
    rw [this, ih]
    by_cases h1 : k ∈ ks
    · simp [h1]
    · by_cases h2 : k = k0 <;> simp [h1, h2, lookupA_setA]

theorem mem_repointKeys (keys : List (String × String)) (rid : Nat)
    (ix : List ((String × String) × Nat)) (e : (String × String) × Nat)
    (h : e ∈ repointKeys keys rid ix) : e.2 = rid ∨ e ∈ ix := by
  induction keys generalizing ix with
  | nil => exact Or.inr h
  | cons k0 ks ih =>
    have h0 : e ∈ repointKeys ks rid (setA k0 rid ix) := h
    rcases ih (setA k0 rid ix) h0 with h1 | h1
    · exact Or.inl h1
    · rcases mem_setA e k0 rid ix h1 with h2 | h2
      · exact Or.inl (by simp [h2])
      · exact Or.inr h2

theorem insertSorted_perm (n : Nat) (l : List Nat) : (insertSorted n l).Perm (n :: l) := by
  induction l with
  | nil => simp [insertSorted]
  | cons m rest ih =>
    by_cases h : n ≤ m
    · simp [insertSorted, h]
    · simp only [insertSorted, if_neg h]
      exact (ih.cons m).trans (List.Perm.swap n m rest)

theorem sortNat_perm (l : List Nat) : (sortNat l).Perm l := by
  induction l with
  | nil => simp [sortNat]
  | cons n rest ih =>
    have : sortNat (n :: rest) = insertSorted n (sortNat rest) := rfl
    rw [this]
    exact (insertSorted_perm n (sortNat rest)).trans (ih.cons n)

theorem insertSorted_sorted (n : Nat) (l : List Nat) (h : List.Sorted (· ≤ ·) l) :
    List.Sorted (· ≤ ·) (insertSorted n l) := by
  induction l with
  | nil => simp [insertSorted]
  | cons m rest ih =>
    by_cases hle : n ≤ m
    · simp only [insertSorted, if_pos hle]
      refine List.sorted_cons.mpr ⟨?_, h⟩
      intro b hb
      rcases List.mem_cons.mp hb with rfl | hb
      · exact hle
      · exact hle.trans (List.rel_of_sorted_cons h b hb)
    · simp only [insertSorted, if_neg hle]
      have hm : ∀ b ∈ insertSorted n rest, m ≤ b := by
        intro b hb
        have hb' := (insertSorted_perm n rest).mem_iff.mp hb
        rcases List.mem_cons.mp hb' with rfl | hb2
        · exact le_of_not_le hle
        · exact List.rel_of_sorted_cons h b hb2
      exact List.sorted_cons.mpr ⟨hm, ih h.of_cons⟩

theorem sortNat_sorted (l : List Nat) : List.Sorted (· ≤ ·) (sortNat l) := by
  induction l with
  | nil => simp [sortNat]
  | cons n rest ih => exact insertSorted_sorted n (sortNat rest) ih

theorem pairLe_total (p q : String × String) : pairLe p q = true ∨ pairLe q p = true := by
  unfold pairLe
  rcases lt_trichotomy p.1 q.1 with h | h | h
  · left; simp [h]
  · rcases le_total p.2 q.2 with h2 | h2
    · left; simp [h, h2]
    · right; simp [h.symm, h2]
  · right; simp [h]

theorem insertSortedPair_perm (p : String × String) (l : List (String × String)) :
    (insertSortedPair p l).Perm (p :: l) := by
  induction l with
  | nil => simp [insertSortedPair]
  | cons q rest ih =>
    by_cases h : pairLe p q = true
    · simp [insertSortedPair, h]
    · simp only [insertSortedPair, if_neg h]
      exact (ih.cons q).trans (List.Perm.swap p q rest)

theorem sortPairs_perm (l : List (String × String)) : (sortPairs l).Perm l := by
  induction l with
  | nil => simp [sortPairs]
  | cons p rest ih =>
    have : sortPairs (p :: rest) = insertSortedPair p (sortPairs rest) := rfl
    rw [this]
    exact (insertSortedPair_perm p (sortPairs rest)).trans (ih.cons p)

theorem pairLe_trans (p q r : String × String) (h1 : pairLe p q = true)
    (h2 : pairLe q r = true) : pairLe p r = true := by
  unfold pairLe at h1 h2 ⊢
  simp only [Bool.or_eq_true, Bool.and_eq_true, decide_eq_true_eq] at h1 h2 ⊢
  rcases h1 with h1 | ⟨h1e, h1le⟩ <;> rcases h2 with h2 | ⟨h2e, h2le⟩
  · exact Or.inl (h1.trans h2)
  · exact Or.inl (h2e ▸ h1)
  · exact Or.inl (h1e ▸ h2)
  · exact Or.inr ⟨h1e.trans h2e, h1le.trans h2le⟩

theorem insertSortedPair_sorted (p : String × String) (l : List (String × String))
    (h : List.Pairwise (fun a b => pairLe a b = true) l) :
    List.Pairwise (fun a b => pairLe a b = true) (insertSortedPair p l) := by
  induction l with
  | nil => simp [insertSortedPair]
  | cons q rest ih =>
    by_cases hle : pairLe p q = true
    · simp only [insertSortedPair, if_pos hle]
      refine List.Pairwise.cons ?_ h
      intro b hb
      rcases List.mem_cons.mp hb with rfl | hb
      · exact hle
      · exact pairLe_trans p q b hle (List.rel_of_pairwise_cons h hb)
    · simp only [insertSortedPair, if_neg hle]
      have hm : ∀ b ∈ insertSortedPair p rest, pairLe q b = true := by
        intro b hb
        have hb' := (insertSortedPair_perm p rest).mem_iff.mp hb
        rcases List.mem_cons.mp hb' with rfl | hb2
        · rcases pairLe_total b q with h2 | h2
          · exact absurd h2 hle
          · exact h2
        · exact List.rel_of_pairwise_cons h hb2
      exact List.Pairwise.cons hm (ih h.of_cons)

theorem sortPairs_sorted (l : List (String × String)) :
    List.Pairwise (fun a b => pairLe a b = true) (sortPairs l) := by
  induction l with
  | nil => simp [sortPairs]
  | cons p rest ih => exact insertSortedPair_sorted p (sortPairs rest) ih

/-! Section: resolver-step lemmas. -/

theorem filterMap_eq_nil_of_none {α β : Type} (f : α → Option β) (l : List α)
    (h : ∀ a ∈ l, f a = none) : l.filterMap f = [] := by
  induction l with
  | nil => rfl
  | cons a as ih =>
    rw [List.filterMap_cons, h a (by simp)]
    exact ih (fun x hx => h x (by simp [hx]))

theorem matchedIds_nil (st : DedupState) (keys : List (String × String))
    (h : ∀ k ∈ keys, lookupA k st.keyIndex = none) :
    matchedIds st keys = [] := by
  unfold matchedIds
  rw [filterMap_eq_nil_of_none _ _ (fun k hk => by rw [h k hk])]
  rfl

theorem processCanonical_fresh (st : DedupState) (c : Paper)
    (h : ∀ k ∈ dedup_keys c, lookupA k st.keyIndex = none) :
    processCanonical st c =
      { records := setA st.nextId c st.records
        keyIndex := repointKeys (dedup_keys c) st.nextId st.keyIndex
        nextId := st.nextId + 1 } := by
  unfold processCanonical
  simp only [matchedIds_nil st _ h]
  have hrec :
      getRecord
        { records := setA st.nextId c st.records
          keyIndex := st.keyIndex
          nextId := st.nextId + 1 } st.nextId = c := by
    simp [getRecord, lookupA_setA]
  simp [hrec]

theorem filterMap_const {α β : Type} (f : α → Option β) (l : List α) (b : β)
    (h : ∀ a ∈ l, f a = some b) : l.filterMap f = l.map (fun _ => b) := by
  induction l with
  | nil => rfl
  | cons a as ih =>
    rw [List.filterMap_cons, h a (by simp), List.map_cons]
    rw [ih (fun x hx => h x (by simp [hx]))]

theorem dedup_of_all_eq {β : Type} [DecidableEq β] (l : List β) (b : β) (hne : l ≠ [])
    (h : ∀ x ∈ l, x = b) : l.dedup = [b] := by
  induction l with
  | nil => cases hne rfl
  | cons a as ih =>
    have ha : a = b := h a (by simp)
    subst ha
    by_cases h0 : as = []
    · subst h0; simp
    · have hmem : a ∈ as := by
        obtain ⟨y, hy⟩ := List.exists_mem_of_ne_nil as h0
        have := h y (by simp [hy])
        rwa [this] at hy
      rw [List.dedup_cons_of_mem hmem]
      exact ih h0 (fun x hx => h x (by simp [hx]))

theorem matchedIds_single (st : DedupState) (keys : List (String × String)) (rid : Nat)
    (hne : keys ≠ [])
    (h : ∀ k ∈ keys, lookupA k st.keyIndex = some rid)
    (hrec : (lookupA rid st.records).isSome = true) :
    matchedIds st keys = [rid] := by
  unfold matchedIds
  rw [filterMap_const _ _ rid (fun k hk => by rw [h k hk]; simp [hrec])]
  rw [dedup_of_all_eq _ rid (by simpa using hne)
    (by intro x hx; obtain ⟨a, _, hfa⟩ := List.mem_map.mp hx; simpa using hfa.symm)]
  rfl

theorem dedup_keys_ne_nil (p : Paper) : dedup_keys p ≠ [] := by
  unfold dedup_keys
  by_cases hd : optTruthy p.doi <;> by_cases ha : optTruthy p.arxiv_id <;>
    by_cases ht : strTruthy p.title_norm <;> simp [hd, ha, ht]

/-! Section: self-merge lemmas. -/

theorem betterStr_self (s : String) : betterStr s s = s := by
  unfold betterStr; split_ifs <;> rfl

theorem better_text_self (o : Option String) : better_text o o = o := by
  unfold better_text; split_ifs <;> rfl

theorem append_unique_of_subset (items values : List String)
    (h : ∀ v ∈ values, v ∈ items) : append_unique items values = items := by
  induction values with
  | nil => rfl
  | cons v vs ih =>
    have hv : v ∈ items := h v (by simp)
    have hstep : append_unique items (v :: vs) = append_unique items vs := by
      unfold append_unique
      simp only [List.foldl_cons]
      congr 1
      exact if_pos (by simp [hv])
    rw [hstep, ih (fun x hx => h x (by simp [hx]))]

theorem append_unique_self (l : List String) : append_unique l l = l :=
  append_unique_of_subset l l (fun _ hv => hv)

theorem lookupA_isSome_of_mem {α β : Type} [DecidableEq α] (p : α × β)
    (l : List (α × β)) (h : p ∈ l) : (lookupA p.1 l).isSome = true := by
  induction l with
  | nil => cases h
  | cons q rest ih =>
    rcases List.mem_cons.mp h with rfl | h1
    · simp [lookupA]
    · by_cases hk : p.1 = q.1 <;> simp [lookupA, hk, ih h1]

theorem mergeSourceIds_of_covered (target incoming : List (String × String))
    (h : ∀ p ∈ incoming, (lookupA p.1 target).isSome = true) :
    mergeSourceIds target incoming = target := by
  induction incoming with
  | nil => rfl
  | cons p ps ih =>
    have hstep : mergeSourceIds target (p :: ps) = mergeSourceIds target ps := by
      unfold mergeSourceIds
      simp only [List.foldl_cons]
      congr 1
      exact if_pos (h p (by simp))
    rw [hstep, ih (fun x hx => h x (by simp [hx]))]

theorem mergeSourceIds_self (l : List (String × String)) : mergeSourceIds l l = l :=
  mergeSourceIds_of_covered l l (fun p hp => lookupA_isSome_of_mem p l hp)

theorem merge_papers_self (c : Paper) (h : c.title_norm = normalize_title c.title) :
    merge_papers c c = c := by
  obtain ⟨t, tn, yr, ve, au, ab, doi, ax, url, pu, so, si⟩ := c
  simp only at h
  unfold merge_papers
  simp only [Paper.mk.injEq]
  refine ⟨betterStr_self t, ?_, ?_, betterStr_self ve, append_unique_self au,
    better_text_self ab, ?_, ?_, ?_, append_unique_self pu, append_unique_self so,
    mergeSourceIds_self si⟩
  · rw [betterStr_self t]; exact h.symm
  · cases yr with
    | none => rfl
    | some y =>
      by_cases hy : 1900 ≤ y ∧ y ≤ 2100
      · simp [coerce_year, hy]
      · simp [coerce_year, hy]
  · split_ifs <;> rfl
  · split_ifs <;> rfl
  · split_ifs <;> rfl

/-! Section: claim theorems. -/

/-- Claim C7: in `merge_papers(target, incoming)`, a target without a valid
year takes the incoming valid year; when both years are valid the minimum
is kept; in particular a record with year 2023 merged into a cluster
holding year 2021 leaves the year at 2021. -/
theorem C7_merge_year_rule (target incoming : Paper) (a b y : Int) :
    (coerce_year target.year = none → coerce_year incoming.year = some y →
      (merge_papers target incoming).year = some y)
    ∧ (coerce_year target.year = some a → coerce_year incoming.year = some b →
      (merge_papers target incoming).year = some (min a b))
    ∧ (target.year = some 2021 → incoming.year = some 2023 →
      (merge_papers target incoming).year = some 2021) := by
  refine ⟨?_, ?_, ?_⟩ <;> intro h1 h2
  · simp [merge_papers, h1, h2]
  · simp [merge_papers, h1, h2]
  · have h1' : coerce_year target.year = some 2021 := by rw [h1]; decide
    have h2' : coerce_year incoming.year = some 2023 := by rw [h2]; decide
    simp [merge_papers, h1', h2']

/-- Witness for C7: concrete merges exercising all three year rules. -/
theorem C7_witness :
    (merge_papers emptyPaper pY2023).year = some 2023
    ∧ (merge_papers pY2021 pY2023).year = some (min 2021 2023)
    ∧ (merge_papers pY2021 pY2023).year = some 2021 :=
  ⟨(C7_merge_year_rule emptyPaper pY2023 0 0 2023).1 (by decide) (by decide),
   (C7_merge_year_rule pY2021 pY2023 2021 2023 0).2.1 (by decide) (by decide),
   (C7_merge_year_rule pY2021 pY2023 0 0 0).2.2 rfl rfl⟩

/-- Claim C8: `normalize_doi` strips any `http(s)://[dx.]doi.org/` and
`doi:` prefix, lowercases, and accepts only identifiers starting with
`10.`; the three spellings of the sample DOI all normalize to the bare
lowercased identifier. -/
theorem C8_doi_normalization :
    (normalize_doi (some "https://doi.org/10.1145/3548606.3560685")
      = some "10.1145/3548606.3560685")
    ∧ (normalize_doi (some "DOI:10.1145/3548606.3560685")
      = some "10.1145/3548606.3560685")
    ∧ (normalize_doi (some "10.1145/3548606.3560685")
      = some "10.1145/3548606.3560685")
    ∧ (∀ s r, normalize_doi (some s) = some r →
        "10.".data.isPrefixOf r.data = true ∧ r.data = doiCore s) := by
  refine ⟨by decide, by decide, by decide, ?_⟩
  intro s r h
  simp only [normalize_doi] at h
  split_ifs at h with h0 h1 h2
  cases h
  exact ⟨h2, rfl⟩

/-- Witness for C8: the general clause applied to a concrete mixed-case
input. -/
theorem C8_witness :
    "10.".data.isPrefixOf ("10.1000/ab".data) = true
    ∧ "10.1000/ab".data = doiCore "dOi:10.1000/AB" :=
  (C8_doi_normalization.2.2.2 "dOi:10.1000/AB" "10.1000/ab" (by decide))

/-- Claim C10 (amended): when the cleaned candidate (strip, unquote, every
`.pdf` occurrence removed, query/fragment cut, strip) is non-empty and none
of the four arXiv patterns matches, `normalize_arxiv_id` returns the
cleaned candidate itself lowercased with one trailing `v<digits>` suffix
removed — provided that suffix stripping leaves a non-empty string; an
empty remainder yields `none`. -/
theorem C10_arxiv_fallback (s : String) (h0 : s ≠ "")
    (h1 : arxivCleanup s ≠ [])
    (h2 : arxivSearch (arxivCleanup s) = none)
    (h3 : arxivFinal (arxivCleanup s) ≠ []) :
    normalize_arxiv_id (some s) = some ⟨arxivFinal (arxivCleanup s)⟩ := by
  have hg : (arxivSearch (arxivCleanup s)).getD (arxivCleanup s) = arxivCleanup s := by
    rw [h2]; rfl
  simp only [normalize_arxiv_id, hg]
  rw [if_neg h0, if_neg (by simpa using h1), if_neg (by simpa using h3)]

/-- Counterexample to C10 as stated: `"v42"` cleans to a non-empty string
matched by no pattern, yet the function returns `none` (the version-suffix
stripping empties the candidate) instead of the cleaned lowercased
string. -/
theorem C10_counterexample :
    arxivCleanup "v42" ≠ [] ∧ arxivSearch (arxivCleanup "v42") = none
    ∧ normalize_arxiv_id (some "v42") = none := by decide

/-- Witness for C10: free text that matches no arXiv pattern becomes a
join key verbatim. -/
theorem C10_witness : normalize_arxiv_id (some "hello world") = some "hello world" :=
  (C10_arxiv_fallback "hello world" (by decide) (by decide) (by decide) (by decide)).trans
    (by decide)

/-- Claim C9 (amended): a marker term matches iff some registered token
group for that canonical venue is contained in the record venue token set;
a plain term matches iff either normalized string contains the other; a
record passes the venue filter iff no terms were requested, or the
normalized venue is non-empty and some requested term matches (a record
whose venue normalizes to the empty string is rejected whenever any terms
are requested); `"ieee sp"` matches the IEEE S&P venue string and not
`"ACM CCS"`. -/
theorem C9_venue_matching (venueTokens : List String) (name : String)
    (venue term : String) (paper : RawPaper) (venueTerms : List String) :
    (venue_matches_canonical_alias venueTokens name = true
      ↔ ∃ g ∈ aget CANONICAL_VENUE_TOKEN_RULES name [], ∀ t ∈ g, t ∈ venueTokens)
    ∧ (parse_canonical_venue_marker term = none →
        venue_term_matches venue venueTokens term
          = (strContains venue term || strContains term venue))
    ∧ (parse_canonical_venue_marker term = some name →
        venue_term_matches venue venueTokens term
          = venue_matches_canonical_alias venueTokens name)
    ∧ (paper_passes_filters paper venueTerms none = true
        ↔ (venueTerms = []
           ∨ (strTruthy (normalize_venue ((paper.venue).getD "")) = true
              ∧ ∃ t ∈ venueTerms,
                  venue_term_matches (normalize_venue ((paper.venue).getD ""))
                    (venueTokensOf paper) t = true)))
    ∧ paper_passes_filters
        { rawA with venue := some "2022 IEEE Symposium on Security and Privacy (SP)" }
        (normalize_requested_venue_terms ["ieee sp"]) none = true
    ∧ paper_passes_filters { rawA with venue := some "ACM CCS" }
        (normalize_requested_venue_terms ["ieee sp"]) none = false := by
  refine ⟨?_, ?_, ?_, ?_, by decide, by decide⟩
  · simp [venue_matches_canonical_alias, List.any_eq_true, List.all_eq_true]
  · intro h
    simp [venue_term_matches, h]
  · intro h
    simp [venue_term_matches, h]
  · unfold paper_passes_filters
    by_cases he : venueTerms.isEmpty
    · simp [he, List.isEmpty_iff.mp he]
    · have hne : ¬venueTerms = [] := by simpa [List.isEmpty_iff] using he
      by_cases hv : strTruthy (normalize_venue ((paper.venue).getD "")) = true
      · simp [he, hv, hne, venueTokensOf, List.any_eq_true]
      · simp [he, hv, hne]

/-- Counterexample to C9 as stated: for a record whose venue normalizes to
the empty string and a requested plain term, the code rejects the record
although the stated matching rule accepts it (the empty venue is a
substring of the term), so "passes iff no terms or some term matches" is
false. -/
theorem C9_counterexample :
    ¬ (paper_passes_filters rawNV (normalize_requested_venue_terms ["zzz"]) none = true
        ↔ (normalize_requested_venue_terms ["zzz"] = []
           ∨ ∃ t ∈ normalize_requested_venue_terms ["zzz"],
               venue_term_matches (normalize_venue ((rawNV.venue).getD ""))
                 (venueTokensOf rawNV) t = true)) := by
  decide

/-- Witness for C9: the conditional clauses applied at concrete inputs. -/
theorem C9_witness :
    venue_term_matches "acm ccs" ["acm", "ccs"] "usenix security"
      = (strContains "acm ccs" "usenix security" || strContains "usenix security" "acm ccs")
    ∧ venue_term_matches "2022 ieee symposium on security and privacy sp"
        ["2022", "ieee", "symposium", "on", "security", "and", "privacy", "sp"]
        "__canonical_venue__:ieee-sp"
      = venue_matches_canonical_alias
          ["2022", "ieee", "symposium", "on", "security", "and", "privacy", "sp"] "ieee-sp" :=
  ⟨(C9_venue_matching ["acm", "ccs"] "x" "acm ccs" "usenix security" rawA []).2.1 (by decide),
   (C9_venue_matching ["2022", "ieee", "symposium", "on", "security", "and", "privacy", "sp"]
      "ieee-sp" "2022 ieee symposium on security and privacy sp"
      "__canonical_venue__:ieee-sp" rawA []).2.2.1 (by decide)⟩

/-- Claim C6: only transport errors and statuses in the retryable set are
retried, and any other HTTP error fails immediately with no sleep; the
sleep is `max(min_interval, Retry-After)` when the header parses (so
`Retry-After: 5` forces at least 5 seconds), else
`max(min_interval, 0.9 * 2^(attempt-1) + jitter)`; `[503, 503, 200]` with
`retries = 3` succeeds after two sleeps of non-decreasing backoff; running
out of retries on a retryable status is a terminal failure. -/
theorem C6_retry_behavior (minI j1 j2 : ℚ) (st : Nat) (hs : List (String × String))
    (rest : List HttpAttempt) (js : List ℚ)
    (hst : st ∉ RETRYABLE_STATUS_CODES)
    (hj1 : 0 ≤ j1 ∧ j1 ≤ 7/20) (hj2 : 0 ≤ j2 ∧ j2 ≤ 7/20) :
    (request_model minI 3 (.httpError st hs :: rest) js = .httpRaise st [])
    ∧ request_model minI 3 [.httpError 503 [], .httpError 503 [], .success 200] [j1, j2]
        = .ok 200 [max minI (9/10 + j1), max minI (9/5 + j2)]
    ∧ max minI ((9 : ℚ)/10 + j1) ≤ max minI ((9 : ℚ)/5 + j2)
    ∧ retry_sleep minI 1 (some [("Retry-After", "5")]) j1 = max minI 5
    ∧ (5 : ℚ) ≤ retry_sleep minI 1 (some [("Retry-After", "5")]) j1
    ∧ request_model minI 3 [.httpError 503 [], .httpError 503 [], .httpError 503 []] [j1, j2]
        = .httpRaise 503 [max minI (9/10 + j1), max minI (9/5 + j2)]
    ∧ request_model minI 3 (.transportError :: .success 200 :: rest) (j1 :: js)
        = .ok 200 [max minI (9/10 + j1)] := by
  have h503 : (503 : Nat) ∈ RETRYABLE_STATUS_CODES := by decide
  have hs1 : retry_sleep minI 1 (some []) j1 = max minI (9/10 + j1) := by
    norm_num [retry_sleep]
  have hs2 : retry_sleep minI 2 (some []) j2 = max minI (9/5 + j2) := by
    norm_num [retry_sleep]
  have hst1 : retry_sleep minI 1 none j1 = max minI (9/10 + j1) := by
    norm_num [retry_sleep]
  have hra : retry_sleep minI 1 (some [("Retry-After", "5")]) j1 = max minI 5 := by
    have hparts : parseFloatParts "5" = some (false, ['5'], []) := by decide
    have hd : digitsVal ['5'] = 5 := by decide
    have hd0 : digitsVal [] = 0 := by decide
    have hp : parsePyFloat "5" = some 5 := by
      rw [parsePyFloat, hparts]
      simp [hd, hd0]
    simp [retry_sleep, lookupA, hp]
  refine ⟨?_, ?_, ?_, hra, ?_, ?_, ?_⟩
  · simp [request_model, requestGo, hst]
  · simp [request_model, requestGo, h503, hs1, hs2]
  · refine max_le_max le_rfl ?_
    have := hj1.2
    have := hj2.1
    linarith
  · rw [hra]
    exact le_max_right _ _
  · simp [request_model, requestGo, h503, hs1, hs2]
  · simp [request_model, requestGo, hst1]

/-- Witness for C6 at concrete parameters. -/
theorem C6_witness :
    request_model 0 3 [.httpError 404 [], .success 200] [] = .httpRaise 404 []
    ∧ request_model 0 3 [.httpError 503 [], .httpError 503 [], .success 200] [0, 7/20]
        = .ok 200 [max 0 (9/10 + 0), max 0 (9/5 + 7/20)]
    ∧ retry_sleep 0 1 (some [("Retry-After", "5")]) 0 = max 0 5 :=
  ⟨(C6_retry_behavior 0 0 (7/20) 404 [] [.success 200] [] (by decide)
      (by norm_num) (by norm_num)).1,
   (C6_retry_behavior 0 0 (7/20) 404 [] [] [] (by decide)
      (by norm_num) (by norm_num)).2.1,
   (C6_retry_behavior 0 0 (7/20) 404 [] [] [] (by decide)
      (by norm_num) (by norm_num)).2.2.2.1⟩

theorem canonicalize_title_norm (raw : RawPaper) (c : Paper)
    (h : canonicalize_raw_paper raw = some c) :
    c.title_norm = normalize_title c.title := by
  simp only [canonicalize_raw_paper] at h
  split_ifs at h with h0
  cases h
  rfl

/-- Claim C5: a raw record that canonicalizes successfully resolves to one
cluster when deduplicated twice, with the same output as deduplicating it
once. -/
theorem C5_idempotence (R : RawPaper) (c : Paper)
    (h : canonicalize_raw_paper R = some c) :
    deduplicate_papers [R, R] = deduplicate_papers [R]
    ∧ (deduplicate_papers [R, R]).length = 1 := by
  have hself : merge_papers c c = c := merge_papers_self c (canonicalize_title_norm R c h)
  have hpr : ∀ st : DedupState, processRaw st R = processCanonical st c := by
    intro st; simp only [processRaw, h]
  have hstA : processCanonical initDedupState c
      = { records := [(1, c)]
          keyIndex := repointKeys (dedup_keys c) 1 []
          nextId := 2 } :=
    processCanonical_fresh initDedupState c (fun _ _ => rfl)
  have hmem : ∀ k ∈ dedup_keys c,
      lookupA k (repointKeys (dedup_keys c) 1 []) = some 1 := by
    intro k hk
    rw [lookupA_repointKeys]
    simp [hk]
  have hm2 : matchedIds
      { records := [(1, c)]
        keyIndex := repointKeys (dedup_keys c) 1 []
        nextId := 2 } (dedup_keys c) = [1] := by
    apply matchedIds_single
    · exact dedup_keys_ne_nil c
    · exact hmem
    · simp [lookupA]
  have e1 : dedupStateOf [R]
      = { records := [(1, c)]
          keyIndex := repointKeys (dedup_keys c) 1 []
          nextId := 2 } := by
    show processRaw initDedupState R = _
    rw [hpr]
    exact hstA
  have e2 : dedupStateOf [R, R]
      = { records := [(1, c)]
          keyIndex := repointKeys (dedup_keys c) 1 (repointKeys (dedup_keys c) 1 [])
          nextId := 2 } := by
    show processRaw (processRaw initDedupState R) R = _
    rw [hpr, hpr, hstA]
    unfold processCanonical
    simp only [hm2]
    simp only [List.foldl_nil]
    have hg : getRecord
        { records := [(1, c)]
          keyIndex := repointKeys (dedup_keys c) 1 []
          nextId := 2 } 1 = c := by
      simp [getRecord, lookupA]
    simp only [hg, hself]
    have hset : setA 1 c [(1, c)] = [(1, c)] := by simp [setA]
    simp only [hset]
    have hg2 : getRecord
        { records := [(1, c)]
          keyIndex := repointKeys (dedup_keys c) 1 []
          nextId := 2 } 1 = c := by
      simp [getRecord, lookupA]
    simp [getRecord, lookupA]
  constructor
  · unfold deduplicate_papers
    rw [e1, e2]
    rfl
  · unfold deduplicate_papers
    rw [e2]
    rfl

/-- Witness for C5 at a concrete raw record. -/
theorem C5_witness :
    deduplicate_papers [rawA, rawA] = deduplicate_papers [rawA]
    ∧ (deduplicate_papers [rawA, rawA]).length = 1 :=
  C5_idempotence rawA (canonOf rawA) (by decide)

/-- Claim C1: for record A (doi D, no arXiv id), B (arXiv id X, no DOI)
and C (both), with non-empty pairwise distinct normalized titles and
non-empty identifiers, `deduplicate_papers [A, B, C]` produces exactly one
cluster; it survives under the numerically smallest id 1, absorbs the other
matched cluster in ascending id order (the folded record is
`merge(merge(a, b), c)`), and carries both doi D and arXiv id X. -/
theorem C1_bridging (rA rB rC : RawPaper) (a b c : Paper) (D X : String)
    (ha : canonicalize_raw_paper rA = some a)
    (hb : canonicalize_raw_paper rB = some b)
    (hc : canonicalize_raw_paper rC = some c)
    (haD : a.doi = some D) (haX : a.arxiv_id = none)
    (hbD : b.doi = none) (hbX : b.arxiv_id = some X)
    (hcD : c.doi = some D) (hcX : c.arxiv_id = some X)
    (hD : D ≠ "") (hX : X ≠ "")
    (hta : a.title_norm ≠ "") (htb : b.title_norm ≠ "") (htc : c.title_norm ≠ "")
    (hab : a.title_norm ≠ b.title_norm) (hac : a.title_norm ≠ c.title_norm)
    (hbc : b.title_norm ≠ c.title_norm) :
    (dedupStateOf [rA, rB, rC]).records = [(1, merge_papers (merge_papers a b) c)]
    ∧ deduplicate_papers [rA, rB, rC] = [finalizeRecord (merge_papers (merge_papers a b) c)]
    ∧ (merge_papers (merge_papers a b) c).doi = some D
    ∧ (merge_papers (merge_papers a b) c).arxiv_id = some X := by
  have hsD : strTruthy D = true := by simp [strTruthy, hD]
  have hsX : strTruthy X = true := by simp [strTruthy, hX]
  have hKa : dedup_keys a = [("doi", D), ("title", a.title_norm)] := by
    simp [dedup_keys, haD, haX, optTruthy, strTruthy, hD, hta]
  have hKb : dedup_keys b = [("arxiv", X), ("title", b.title_norm)] := by
    simp [dedup_keys, hbD, hbX, optTruthy, strTruthy, hX, htb]
  have hKc : dedup_keys c = [("doi", D), ("arxiv", X), ("title", c.title_norm)] := by
    simp [dedup_keys, hcD, hcX, optTruthy, strTruthy, hD, hX, htc]
  have hprA : ∀ st : DedupState, processRaw st rA = processCanonical st a := by
    intro st; simp only [processRaw, ha]
  have hprB : ∀ st : DedupState, processRaw st rB = processCanonical st b := by
    intro st; simp only [processRaw, hb]
  have hprC : ∀ st : DedupState, processRaw st rC = processCanonical st c := by
    intro st; simp only [processRaw, hc]
  have hstA : processCanonical initDedupState a
      = { records := [(1, a)], keyIndex := repointKeys (dedup_keys a) 1 [], nextId := 2 } :=
    processCanonical_fresh _ _ (fun _ _ => rfl)
  have hfb : ∀ k ∈ dedup_keys b, lookupA k (repointKeys (dedup_keys a) 1 []) = none := by
    intro k hk
    rw [lookupA_repointKeys, hKa]
    rw [hKb] at hk
    simp only [List.mem_cons, List.not_mem_nil, or_false] at hk
    rcases hk with rfl | rfl
    · rw [if_neg (by simp)]
      rfl
    · rw [if_neg (by simp [Ne.symm hab])]
      rfl
  have hstB : processCanonical
      { records := [(1, a)], keyIndex := repointKeys (dedup_keys a) 1 [], nextId := 2 } b
      = { records := [(1, a), (2, b)]
          keyIndex := repointKeys (dedup_keys b) 2 (repointKeys (dedup_keys a) 1 [])
          nextId := 3 } := by
    exact processCanonical_fresh _ _ hfb
  have hlc1 : lookupA ("doi", D)
      (repointKeys (dedup_keys b) 2 (repointKeys (dedup_keys a) 1 [])) = some 1 := by
    rw [lookupA_repointKeys, if_neg (by rw [hKb]; simp)]
    rw [lookupA_repointKeys, if_pos (by rw [hKa]; simp)]
  have hlc2 : lookupA ("arxiv", X)
      (repointKeys (dedup_keys b) 2 (repointKeys (dedup_keys a) 1 [])) = some 2 := by
    rw [lookupA_repointKeys, if_pos (by rw [hKb]; simp)]
  have hlc3 : lookupA ("title", c.title_norm)
      (repointKeys (dedup_keys b) 2 (repointKeys (dedup_keys a) 1 [])) = none := by
    rw [lookupA_repointKeys, if_neg (by rw [hKb]; simp [Ne.symm hbc])]
    rw [lookupA_repointKeys, if_neg (by rw [hKa]; simp [Ne.symm hac])]
    rfl
  have hmc : matchedIds
      { records := [(1, a), (2, b)]
        keyIndex := repointKeys (dedup_keys b) 2 (repointKeys (dedup_keys a) 1 [])
        nextId := 3 } (dedup_keys c) = [1, 2] := by
    unfold matchedIds
    rw [hKc]
    simp [hlc1, hlc2, hlc3, lookupA, sortNat, insertSorted]
  have hstC : processCanonical
      { records := [(1, a), (2, b)]
        keyIndex := repointKeys (dedup_keys b) 2 (repointKeys (dedup_keys a) 1 [])
        nextId := 3 } c
      = { records := [(1, merge_papers (merge_papers a b) c)]
          keyIndex := repointKeys (dedup_keys (merge_papers (merge_papers a b) c)) 1
            (((repointKeys (dedup_keys b) 2 (repointKeys (dedup_keys a) 1 [])).map
              (fun e => if e.2 = 2 then (e.1, 1) else e)))
          nextId := 3 } := by
    unfold processCanonical
    simp only [hmc, List.foldl_cons, List.foldl_nil]
    unfold absorbCluster
    simp [getRecord, lookupA, setA, eraseA]
  have efin : dedupStateOf [rA, rB, rC]
      = { records := [(1, merge_papers (merge_papers a b) c)]
          keyIndex := repointKeys (dedup_keys (merge_papers (merge_papers a b) c)) 1
            (((repointKeys (dedup_keys b) 2 (repointKeys (dedup_keys a) 1 [])).map
              (fun e => if e.2 = 2 then (e.1, 1) else e)))
          nextId := 3 } := by
    show processRaw (processRaw (processRaw initDedupState rA) rB) rC = _
    rw [hprA, hprB, hprC, hstA, hstB, hstC]
  have doi_keep : ∀ t i : Paper, optTruthy t.doi = true →
      (merge_papers t i).doi = t.doi := by
    intro t i hT; simp [merge_papers, hT]
  have ax_keep : ∀ t i : Paper, optTruthy t.arxiv_id = true →
      (merge_papers t i).arxiv_id = t.arxiv_id := by
    intro t i hT; simp [merge_papers, hT]
  have ax_fill : ∀ t i : Paper, optTruthy t.arxiv_id = false →
      (merge_papers t i).arxiv_id = (if optTruthy i.arxiv_id then i.arxiv_id else t.arxiv_id) := by
    intro t i hT; simp [merge_papers, hT]
  have hmabD : (merge_papers a b).doi = some D := by
    rw [doi_keep a b (by rw [haD]; exact hsD), haD]
  have hmabX : (merge_papers a b).arxiv_id = some X := by
    rw [ax_fill a b (by rw [haX]; rfl)]
    rw [hbX]
    simp [optTruthy, hsX]
  have hm_doi : (merge_papers (merge_papers a b) c).doi = some D := by
    rw [doi_keep (merge_papers a b) c (by rw [hmabD]; exact hsD), hmabD]
  have hm_ax : (merge_papers (merge_papers a b) c).arxiv_id = some X := by
    rw [ax_keep (merge_papers a b) c (by rw [hmabX]; exact hsX), hmabX]
  refine ⟨?_, ?_, hm_doi, hm_ax⟩
  · rw [efin]
  · unfold deduplicate_papers
    rw [efin]
    rfl

/-- Witness for C1 at a concrete DOI/arXiv bridge triple. -/
theorem C1_witness :
    (dedupStateOf [rawA, rawB, rawC]).records
      = [(1, merge_papers (merge_papers (canonOf rawA) (canonOf rawB)) (canonOf rawC))]
    ∧ deduplicate_papers [rawA, rawB, rawC]
      = [finalizeRecord (merge_papers (merge_papers (canonOf rawA) (canonOf rawB))
          (canonOf rawC))]
    ∧ (merge_papers (merge_papers (canonOf rawA) (canonOf rawB)) (canonOf rawC)).doi
      = some "10.1145/11111"
    ∧ (merge_papers (merge_papers (canonOf rawA) (canonOf rawB)) (canonOf rawC)).arxiv_id
      = some "2301.00001" :=
  C1_bridging rawA rawB rawC (canonOf rawA) (canonOf rawB) (canonOf rawC)
    "10.1145/11111" "2301.00001" (by decide) (by decide) (by decide) (by decide)
    (by decide) (by decide) (by decide) (by decide) (by decide) (by decide)
    (by decide) (by decide) (by decide) (by decide) (by decide) (by decide)
    (by decide)

theorem mem_matchedIds (st : DedupState) (keys : List (String × String)) (x : Nat)
    (h : x ∈ matchedIds st keys) : (lookupA x st.records).isSome = true := by
  unfold matchedIds at h
  have h1 := (sortNat_perm _).mem_iff.mp h
  have h2 := List.mem_dedup.mp h1
  obtain ⟨k, hk, hfk⟩ := List.mem_filterMap.mp h2
  cases hl : lookupA k st.keyIndex with
  | none =>
    rw [hl] at hfk
    cases hfk
  | some rid =>
    rw [hl] at hfk
    dsimp only at hfk
    by_cases hg : (lookupA rid st.records).isSome = true
    · rw [if_pos hg] at hfk
      cases hfk
      exact hg
    · rw [if_neg hg] at hfk
      cases hfk

theorem matchedIds_nodup (st : DedupState) (keys : List (String × String)) :
    (matchedIds st keys).Nodup :=
  ((sortNat_perm _).nodup_iff).mpr (List.nodup_dedup _)

theorem absorbCluster_consistent (st : DedupState) (rid other : Nat)
    (h : keyIndexConsistent st) (hrid : (lookupA rid st.records).isSome = true)
    (hne : rid ≠ other) :
    keyIndexConsistent (absorbCluster st rid other)
    ∧ (lookupA rid (absorbCluster st rid other).records).isSome = true := by
  constructor
  · intro e he
    unfold absorbCluster at he ⊢
    simp only at he ⊢
    obtain ⟨e0, he0, rfl⟩ := List.mem_map.mp he
    by_cases h2 : e0.2 = other
    · rw [if_pos h2]
      simp [lookupA_setA]
    · rw [if_neg h2]
      rw [lookupA_setA]
      by_cases h3 : e0.2 = rid
      · simp [h3]
      · rw [if_neg h3, lookupA_eraseA_ne _ _ _ h2]
        exact h e0 he0
  · unfold absorbCluster
    simp [lookupA_setA]

theorem absorb_fold_consistent (others : List Nat) (rid : Nat) (st : DedupState)
    (h : keyIndexConsistent st) (hrid : (lookupA rid st.records).isSome = true)
    (hne : ∀ o ∈ others, rid ≠ o) :
    keyIndexConsistent (others.foldl (fun acc other => absorbCluster acc rid other) st)
    ∧ (lookupA rid
        (others.foldl (fun acc other => absorbCluster acc rid other) st).records).isSome
        = true := by
  induction others generalizing st with
  | nil => exact ⟨h, hrid⟩
  | cons o os ih =>
    simp only [List.foldl_cons]
    have h1 := absorbCluster_consistent st rid o h hrid (hne o (by simp))
    exact ih _ h1.1 h1.2 (fun x hx => hne x (by simp [hx]))

theorem consistent_after_set_repoint (recs : List (Nat × Paper))
    (ix : List ((String × String) × Nat)) (keys : List (String × String))
    (rid : Nat) (p : Paper)
    (hbase : ∀ e ∈ ix, (lookupA e.2 recs).isSome = true) :
    ∀ e ∈ repointKeys keys rid ix, (lookupA e.2 (setA rid p recs)).isSome = true := by
  intro e he
  rcases mem_repointKeys keys rid ix e he with h1 | h1
  · rw [h1, lookupA_setA]
    simp
  · rw [lookupA_setA]
    by_cases h2 : e.2 = rid
    · simp [h2]
    · rw [if_neg h2]
      exact hbase e h1

theorem processCanonical_consistent (st : DedupState) (c : Paper)
    (h : keyIndexConsistent st) : keyIndexConsistent (processCanonical st c) := by
  rcases hm : matchedIds st (dedup_keys c) with _ | ⟨rid, others⟩
  · have heq : processCanonical st c
        = { records := setA st.nextId c st.records
            keyIndex := repointKeys
              (dedup_keys (getRecord
                { records := setA st.nextId c st.records
                  keyIndex := st.keyIndex
                  nextId := st.nextId + 1 } st.nextId)) st.nextId st.keyIndex
            nextId := st.nextId + 1 } := by
      unfold processCanonical
      simp only [hm]
    rw [heq]
    exact fun e he => consistent_after_set_repoint st.records st.keyIndex _ st.nextId c h e he
  · have hrid : (lookupA rid st.records).isSome = true :=
      mem_matchedIds st _ rid (by rw [hm]; simp)
    have hno : ∀ o ∈ others, rid ≠ o := by
      have hnd := matchedIds_nodup st (dedup_keys c)
      rw [hm] at hnd
      intro o ho heq
      exact (List.nodup_cons.mp hnd).1 (heq ▸ ho)
    obtain ⟨hc1, hc2⟩ := absorb_fold_consistent others rid st h hrid hno
    have heq : processCanonical st c
        = { records := setA rid
              (merge_papers (getRecord
                (others.foldl (fun acc other => absorbCluster acc rid other) st) rid) c)
              (others.foldl (fun acc other => absorbCluster acc rid other) st).records
            keyIndex := repointKeys
              (dedup_keys (getRecord
                { records := setA rid
                    (merge_papers (getRecord
                      (others.foldl (fun acc other => absorbCluster acc rid other) st) rid) c)
                    (others.foldl (fun acc other => absorbCluster acc rid other) st).records
                  keyIndex :=
                    (others.foldl (fun acc other => absorbCluster acc rid other) st).keyIndex
                  nextId :=
                    (others.foldl (fun acc other => absorbCluster acc rid other) st).nextId }
                rid)) rid
              (others.foldl (fun acc other => absorbCluster acc rid other) st).keyIndex
            nextId := (others.foldl (fun acc other => absorbCluster acc rid other) st).nextId }
        := by
      unfold processCanonical
      simp only [hm]
    rw [heq]
    exact fun e he => consistent_after_set_repoint _ _ _ rid _ hc1 e he

theorem processRaw_consistent (st : DedupState) (r : RawPaper)
    (h : keyIndexConsistent st) : keyIndexConsistent (processRaw st r) := by
  unfold processRaw
  cases hc : canonicalize_raw_paper r with
  | none => exact h
  | some c => exact processCanonical_consistent st c h

theorem foldl_processRaw_consistent (raws : List RawPaper) (st : DedupState)
    (h : keyIndexConsistent st) : keyIndexConsistent (raws.foldl processRaw st) := by
  induction raws generalizing st with
  | nil => exact h
  | cons r rs ih =>
    simp only [List.foldl_cons]
    exact ih _ (processRaw_consistent st r h)

/-- Claim C3: after every fully processed record the key index maps only to
live cluster ids (no key ever points at an absorbed cluster), and a merge
explicitly rewrites every key entry owned by the absorbed cluster to the
surviving id. -/
theorem C3_key_index_consistency :
    (∀ raws : List RawPaper, keyIndexConsistent (dedupStateOf raws))
    ∧ (∀ (st : DedupState) (rid other : Nat), rid ≠ other →
        ∀ e ∈ (absorbCluster st rid other).keyIndex, e.2 ≠ other) := by
  constructor
  · intro raws
    refine foldl_processRaw_consistent raws initDedupState ?_
    intro e he
    simp [initDedupState] at he
  · intro st rid other hne e he
    unfold absorbCluster at he
    simp only at he
    obtain ⟨e0, he0, rfl⟩ := List.mem_map.mp he
    by_cases h2 : e0.2 = other
    · rw [if_pos h2]
      exact hne
    · rw [if_neg h2]
      exact h2

/-- Witness for C3: the invariant holds for a concrete run, and every key
entry of a concrete absorbed cluster has been rewritten away from its
id. -/
theorem C3_witness :
    keyIndexConsistent (dedupStateOf [rawP, rawQ, rawS])
    ∧ 2 ∉ (absorbCluster stFix 1 2).keyIndex.map Prod.snd := by
  refine ⟨C3_key_index_consistency.1 [rawP, rawQ, rawS], ?_⟩
  intro hmem
  obtain ⟨e, he, he2⟩ := List.mem_map.mp hmem
  exact C3_key_index_consistency.2 stFix 1 2 (by decide) e he he2

/-- Claim C4: finalization assigns `paper_id` by the doi > arxiv >
title-hash preference order — the title id is `title:` followed by the
first 16 hex characters of the SHA-1 of the normalized title, and depends
only on the normalized title — sorts `source_ids` by key, and emits
clusters in ascending original-allocation cluster-id order. -/
theorem C4_finalization (raws : List RawPaper) (p q : Paper) :
    (deduplicate_papers raws
      = (sortNat ((dedupStateOf raws).records.map Prod.fst)).map
          (fun rid => finalizeRecord (getRecord (dedupStateOf raws) rid)))
    ∧ List.Sorted (· ≤ ·) (sortNat ((dedupStateOf raws).records.map Prod.fst))
    ∧ (optTruthy p.doi = true →
        (finalizeRecord p).paper_id = "doi:" ++ p.doi.getD "")
    ∧ (optTruthy p.doi = false → optTruthy p.arxiv_id = true →
        (finalizeRecord p).paper_id = "arxiv:" ++ p.arxiv_id.getD "")
    ∧ (optTruthy p.doi = false → optTruthy p.arxiv_id = false →
        (finalizeRecord p).paper_id
          = "title:" ++ (⟨(sha1Hex (strBytes p.title_norm)).data.take 16⟩ : String))
    ∧ (optTruthy p.doi = false → optTruthy p.arxiv_id = false →
        optTruthy q.doi = false → optTruthy q.arxiv_id = false →
        p.title_norm = q.title_norm →
        (finalizeRecord p).paper_id = (finalizeRecord q).paper_id)
    ∧ List.Pairwise (fun e1 e2 => pairLe e1 e2 = true) ((finalizeRecord p).source_ids)
    ∧ ((finalizeRecord p).source_ids).Perm p.source_ids := by
  refine ⟨rfl, sortNat_sorted _, ?_, ?_, ?_, ?_, ?_, ?_⟩
  · intro h
    simp [finalizeRecord, h]
  · intro h1 h2
    simp [finalizeRecord, h1, h2]
  · intro h1 h2
    simp [finalizeRecord, h1, h2]
  · intro h1 h2 h3 h4 h5
    simp [finalizeRecord, h1, h2, h3, h4, h5]
  · exact sortPairs_sorted p.source_ids
  · exact sortPairs_perm p.source_ids

/-- Witness for C4: concrete records exercising all three paper_id cases
and the title-only dependence. -/
theorem C4_witness :
    (finalizeRecord pDoi).paper_id = "doi:10.5/abc"
    ∧ (finalizeRecord pArx).paper_id = "arxiv:2302.12345"
    ∧ (finalizeRecord pTitleA).paper_id
        = "title:" ++ (⟨(sha1Hex (strBytes pTitleA.title_norm)).data.take 16⟩ : String)
    ∧ (finalizeRecord pTitleA).paper_id = (finalizeRecord pTitleB).paper_id :=
  ⟨((C4_finalization [] pDoi pDoi).2.2.1 (by decide)).trans (by decide),
   ((C4_finalization [] pArx pArx).2.2.2.1 (by decide) (by decide)).trans (by decide),
   (C4_finalization [] pTitleA pTitleA).2.2.2.2.1 (by decide) (by decide),
   (C4_finalization [] pTitleA pTitleB).2.2.2.2.2.1 (by decide) (by decide) (by decide)
     (by decide) (by decide)⟩

theorem dedup_three_fresh (r1 r2 r3 : RawPaper) (c1 c2 c3 : Paper)
    (h1 : canonicalize_raw_paper r1 = some c1)
    (h2 : canonicalize_raw_paper r2 = some c2)
    (h3 : canonicalize_raw_paper r3 = some c3)
    (d21 : ∀ k ∈ dedup_keys c2, k ∉ dedup_keys c1)
    (d31 : ∀ k ∈ dedup_keys c3, k ∉ dedup_keys c1)
    (d32 : ∀ k ∈ dedup_keys c3, k ∉ dedup_keys c2) :
    deduplicate_papers [r1, r2, r3]
      = [finalizeRecord c1, finalizeRecord c2, finalizeRecord c3] := by
  have hpr1 : ∀ st : DedupState, processRaw st r1 = processCanonical st c1 := by
    intro st; simp only [processRaw, h1]
  have hpr2 : ∀ st : DedupState, processRaw st r2 = processCanonical st c2 := by
    intro st; simp only [processRaw, h2]
  have hpr3 : ∀ st : DedupState, processRaw st r3 = processCanonical st c3 := by
    intro st; simp only [processRaw, h3]
  have hstA : processCanonical initDedupState c1
      = { records := [(1, c1)], keyIndex := repointKeys (dedup_keys c1) 1 [], nextId := 2 } :=
    processCanonical_fresh _ _ (fun _ _ => rfl)
  have hf2 : ∀ k ∈ dedup_keys c2, lookupA k (repointKeys (dedup_keys c1) 1 []) = none := by
    intro k hk
    rw [lookupA_repointKeys, if_neg (d21 k hk)]
    rfl
  have hstB : processCanonical
      { records := [(1, c1)], keyIndex := repointKeys (dedup_keys c1) 1 [], nextId := 2 } c2
      = { records := [(1, c1), (2, c2)]
          keyIndex := repointKeys (dedup_keys c2) 2 (repointKeys (dedup_keys c1) 1 [])
          nextId := 3 } :=
    processCanonical_fresh _ _ hf2
  have hf3 : ∀ k ∈ dedup_keys c3,
      lookupA k (repointKeys (dedup_keys c2) 2 (repointKeys (dedup_keys c1) 1 [])) = none := by
    intro k hk
    rw [lookupA_repointKeys, if_neg (d32 k hk), lookupA_repointKeys, if_neg (d31 k hk)]
    rfl
  have hstC : processCanonical
      { records := [(1, c1), (2, c2)]
        keyIndex := repointKeys (dedup_keys c2) 2 (repointKeys (dedup_keys c1) 1 [])
        nextId := 3 } c3
      = { records := [(1, c1), (2, c2), (3, c3)]
          keyIndex := repointKeys (dedup_keys c3) 3
            (repointKeys (dedup_keys c2) 2 (repointKeys (dedup_keys c1) 1 []))
          nextId := 4 } :=
    processCanonical_fresh _ _ hf3
  have efin : dedupStateOf [r1, r2, r3]
      = { records := [(1, c1), (2, c2), (3, c3)]
          keyIndex := repointKeys (dedup_keys c3) 3
            (repointKeys (dedup_keys c2) 2 (repointKeys (dedup_keys c1) 1 []))
          nextId := 4 } := by
    show processRaw (processRaw (processRaw initDedupState r1) r2) r3 = _
    rw [hpr1, hpr2, hpr3, hstA, hstB, hstC]
  unfold deduplicate_papers
  rw [efin]
  rfl

/-- Claim C2 (amended): for three records that canonicalize successfully
and pairwise share no dedup key, every permutation of the input list yields
the same final cluster set — the outputs are permutations of the same
three finalized clusters, so cluster count, paper_ids and per-cluster field
values agree. (As stated, with merging records, the claim is refuted by
`C2_counterexample`: first-seen union order makes field values
order-dependent.) -/
theorem C2_order_insensitivity (rX rY rZ : RawPaper) (x y z : Paper)
    (hx : canonicalize_raw_paper rX = some x)
    (hy : canonicalize_raw_paper rY = some y)
    (hz : canonicalize_raw_paper rZ = some z)
    (dxy : ∀ k ∈ dedup_keys x, k ∉ dedup_keys y)
    (dxz : ∀ k ∈ dedup_keys x, k ∉ dedup_keys z)
    (dyz : ∀ k ∈ dedup_keys y, k ∉ dedup_keys z)
    (l : List RawPaper)
    (hl : l = [rX, rY, rZ] ∨ l = [rX, rZ, rY] ∨ l = [rY, rX, rZ]
        ∨ l = [rY, rZ, rX] ∨ l = [rZ, rX, rY] ∨ l = [rZ, rY, rX]) :
    (deduplicate_papers l).Perm (deduplicate_papers [rX, rY, rZ]) := by
  have nyx : ∀ k ∈ dedup_keys y, k ∉ dedup_keys x := fun k hk hk' => dxy k hk' hk
  have nzx : ∀ k ∈ dedup_keys z, k ∉ dedup_keys x := fun k hk hk' => dxz k hk' hk
  have nzy : ∀ k ∈ dedup_keys z, k ∉ dedup_keys y := fun k hk hk' => dyz k hk' hk
  have base : deduplicate_papers [rX, rY, rZ]
      = [finalizeRecord x, finalizeRecord y, finalizeRecord z] :=
    dedup_three_fresh rX rY rZ x y z hx hy hz nyx nzx nzy
  rcases hl with rfl | rfl | rfl | rfl | rfl | rfl
  · exact List.Perm.refl _
  · rw [base, dedup_three_fresh rX rZ rY x z y hx hz hy nzx nyx dyz]
    exact List.Perm.cons _ (List.Perm.swap _ _ _)
  · rw [base, dedup_three_fresh rY rX rZ y x z hy hx hz dxy nzy nzx]
    exact List.Perm.swap _ _ _
  · rw [base, dedup_three_fresh rY rZ rX y z x hy hz hx nzy dxy dxz]
    exact ((List.Perm.cons _ (List.Perm.swap _ _ _)).trans (List.Perm.swap _ _ _))
  · rw [base, dedup_three_fresh rZ rX rY z x y hz hx hy dxz dyz nyx]
    exact ((List.Perm.swap _ _ _).trans (List.Perm.cons _ (List.Perm.swap _ _ _)))
  · rw [base, dedup_three_fresh rZ rY rX z y x hz hy hx dyz dxz dxy]
    exact ((List.Perm.cons _ (List.Perm.swap _ _ _)).trans
      ((List.Perm.swap _ _ _).trans (List.Perm.cons _ (List.Perm.swap _ _ _))))

/-- Counterexample to C2 as stated: the three records satisfy the claimed
side conditions (pairwise distinct lengths for non-empty text fields,
distinct years), yet swapping the first two inputs changes the final
cluster set — the merged cluster's author list order differs — so the
outputs are not even permutations of each other. -/
theorem C2_counterexample :
    (c2PairOk (canonOf rawP) (canonOf rawQ) && c2PairOk (canonOf rawP) (canonOf rawS)
      && c2PairOk (canonOf rawQ) (canonOf rawS)) = true
    ∧ ¬ (deduplicate_papers [rawQ, rawP, rawS]).Perm
        (deduplicate_papers [rawP, rawQ, rawS]) := by
  constructor
  · decide
  · decide

/-- Witness for C2 at a concrete key-disjoint triple. -/
theorem C2_witness :
    (deduplicate_papers [rawB, rawA, rawD]).Perm (deduplicate_papers [rawA, rawB, rawD]) :=
  C2_order_insensitivity rawA rawB rawD (canonOf rawA) (canonOf rawB) (canonOf rawD)
    (by decide) (by decide) (by decide) (by decide) (by decide) (by decide)
    [rawB, rawA, rawD] (Or.inr (Or.inr (Or.inl rfl)))
